import Mathlib

/-!
Verification of the bon-ui rendering pipeline and reconciler.

The JavaScript sources are embedded shallowly:
* virtual nodes become the inductive type VNode, with DOM handles as Nat ids;
* the live document is an explicit Dom state (association list of DomNode
  records) threaded through every operation, together with a trace of the
  mutation calls performed on live nodes;
* Reconciler.updateVNodeDOM becomes updAux, a fuel-indexed state transformer
  (fuel bounds the recursion depth; the wrapper passes sizeOf of the previous
  tree, which always suffices);
* View.renderToVNode becomes renderRV over a store of view records;
* the mount/unmount guards and applyViewProperties get their own small models.
-/

/-- A stringifiable style/attribute value: ref is the object identity,
str is the result of toString. The source compares values only via
toString, never by reference. -/
structure SVal where
  ref : Nat
  str : String
  deriving Repr, DecidableEq

/-- Kind of a virtual node; the reconciler only ever tests for text. -/
inductive VNodeType : Type where
  | element : VNodeType
  | text : VNodeType
  deriving Repr, DecidableEq

/-- Virtual node, as constructed in VNode.js / View.getBody: tag, type, key,
styles, attributes, events (event name to ordered handler list, handlers are
function ids), body (children), view (originating View id), dom (bound live
node id, null before binding). -/
inductive VNode : Type where
  | mk : (tag : String) → (type : VNodeType) → (key : Option Nat) →
         (styles : List (String × SVal)) → (attributes : List (String × SVal)) →
         (events : List (String × List Nat)) → (body : List VNode) →
         (view : Option Nat) → (dom : Option Nat) → VNode

def VNode.tag : VNode → String
  | .mk t _ _ _ _ _ _ _ _ => t

def VNode.type : VNode → VNodeType
  | .mk _ ty _ _ _ _ _ _ _ => ty

def VNode.key : VNode → Option Nat
  | .mk _ _ k _ _ _ _ _ _ => k

def VNode.styles : VNode → List (String × SVal)
  | .mk _ _ _ s _ _ _ _ _ => s

def VNode.attributes : VNode → List (String × SVal)
  | .mk _ _ _ _ a _ _ _ _ => a

def VNode.events : VNode → List (String × List Nat)
  | .mk _ _ _ _ _ e _ _ _ => e

def VNode.body : VNode → List VNode
  | .mk _ _ _ _ _ _ b _ _ => b

def VNode.view : VNode → Option Nat
  | .mk _ _ _ _ _ _ _ v _ => v

def VNode.dom : VNode → Option Nat
  | .mk _ _ _ _ _ _ _ _ d => d

/-- Replace the body and dom of a node (the two fields the reconciler writes). -/
def VNode.withBodyDom : VNode → List VNode → Option Nat → VNode
  | .mk t ty k s a e _ v _, b, d => .mk t ty k s a e b v d

/-- Replace only the dom binding of a node. -/
def VNode.withDom : VNode → Option Nat → VNode
  | .mk t ty k s a e b v _, d => .mk t ty k s a e b v d

/-- JavaScript truthiness of a key value: null is falsy and so is the
number 0 (setKey stores numbers as numbers). -/
def keyTruthy : Option Nat → Bool
  | none => false
  | some n => n != 0

/-- One mutation call performed on the live document. -/
inductive DomCall : Type where
  | setStyle : Nat → String → String → DomCall
  | removeAttribute : Nat → String → DomCall
  | setAttribute : Nat → String → String → DomCall
  | removeEventListener : Nat → String → Option Nat → DomCall
  | addEventListener : Nat → String → Nat → DomCall
  | replaceWith : Option Nat → Nat → DomCall
  | removeChild : Nat → Nat → DomCall
  | insertBefore : Nat → Nat → Option Nat → DomCall
  | prepend : Nat → Nat → DomCall
  | handleMount : Nat → DomCall
  | handleInvalidation : Nat → DomCall
  deriving Repr, DecidableEq

/-- A live document node: its style map (an empty-string style is absent),
attribute map, registered listeners, children in document order. -/
structure DomNode where
  style : List (String × String)
  attrs : List (String × String)
  listeners : List (String × Nat)
  children : List Nat
  deriving Repr, DecidableEq

/-- The live document: allocated nodes, a fresh-id counter and the trace of
mutation calls made so far. -/
structure Dom where
  nodes : List (Nat × DomNode)
  fresh : Nat
  trace : List DomCall
  deriving Repr, DecidableEq

def alistLookup {α : Type} (l : List (String × α)) (k : String) : Option α :=
  match l.find? (fun p => p.1 == k) with
  | some p => some p.2
  | none => none

def alistSet {α : Type} (l : List (String × α)) (k : String) (v : α) :
    List (String × α) :=
  if (l.find? (fun p => p.1 == k)).isSome then
    l.map (fun p => if p.1 == k then (p.1, v) else p)
  else
    l ++ [(k, v)]

def alistRemove {α : Type} (l : List (String × α)) (k : String) :
    List (String × α) :=
  l.filter (fun p => p.1 != k)

def lookupNode (d : Dom) (i : Nat) : Option DomNode :=
  match d.nodes.find? (fun p => p.1 == i) with
  | some p => some p.2
  | none => none

def setNode (d : Dom) (i : Nat) (n : DomNode) : Dom :=
  if (d.nodes.find? (fun p => p.1 == i)).isSome then
    { d with nodes := d.nodes.map (fun p => if p.1 == i then (i, n) else p) }
  else
    { d with nodes := d.nodes ++ [(i, n)] }

def pushTrace (d : Dom) (c : DomCall) : Dom :=
  { d with trace := d.trace ++ [c] }

/-- Parent of a live node: the unique node holding it among its children. -/
def findParent (d : Dom) (c : Nat) : Option Nat :=
  match d.nodes.find? (fun p => p.2.children.contains c) with
  | some p => some p.1
  | none => none

/-- nextSibling of a live node, or none when it is the last child. -/
def nextSibling (d : Dom) (c : Nat) : Option Nat :=
  match findParent d c with
  | none => none
  | some p =>
    match lookupNode d p with
    | none => none
    | some pn =>
      match pn.children.dropWhile (fun x => x != c) with
      | _ :: s :: _ => some s
      | _ => none

/-- dom.style[prop] = val; assigning the empty string removes the property. -/
def domSetStyle (d : Dom) (node : Option Nat) (prop val : String) : Dom :=
  match node with
  | none => d
  | some i =>
    let d := pushTrace d (.setStyle i prop val)
    match lookupNode d i with
    | none => d
    | some n =>
      let st := if val == "" then alistRemove n.style prop
                else alistSet n.style prop val
      setNode d i { n with style := st }

def domRemoveAttribute (d : Dom) (node : Option Nat) (name : String) : Dom :=
  match node with
  | none => d
  | some i =>
    let d := pushTrace d (.removeAttribute i name)
    match lookupNode d i with
    | none => d
    | some n => setNode d i { n with attrs := alistRemove n.attrs name }

def domSetAttribute (d : Dom) (node : Option Nat) (name val : String) : Dom :=
  match node with
  | none => d
  | some i =>
    let d := pushTrace d (.setAttribute i name val)
    match lookupNode d i with
    | none => d
    | some n => setNode d i { n with attrs := alistSet n.attrs name val }

/-- removeEventListener; the handler argument can be undefined (none), in
which case the call does nothing to the listener set. -/
def domRemoveEventListener (d : Dom) (node : Option Nat) (ev : String)
    (h : Option Nat) : Dom :=
  match node with
  | none => d
  | some i =>
    let d := pushTrace d (.removeEventListener i ev h)
    match h with
    | none => d
    | some hf =>
      match lookupNode d i with
      | none => d
      | some n =>
        setNode d i
          { n with listeners := n.listeners.filter (fun p => p != (ev, hf)) }

/-- addEventListener; re-adding an identical (event, handler) pair is a
no-op on the listener set, as in the DOM. -/
def domAddEventListener (d : Dom) (node : Option Nat) (ev : String)
    (h : Nat) : Dom :=
  match node with
  | none => d
  | some i =>
    let d := pushTrace d (.addEventListener i ev h)
    match lookupNode d i with
    | none => d
    | some n =>
      if n.listeners.contains (ev, h) then d
      else setNode d i { n with listeners := n.listeners ++ [(ev, h)] }

def domRemoveChild (d : Dom) (parent child : Nat) : Dom :=
  let d := pushTrace d (.removeChild parent child)
  match lookupNode d parent with
  | none => d
  | some n =>
    setNode d parent { n with children := n.children.filter (fun x => x != child) }

/-- parent.insertBefore(newId, ref); a null ref appends at the end. -/
def domInsertBefore (d : Dom) (parent newId : Nat) (ref : Option Nat) : Dom :=
  let d := pushTrace d (.insertBefore parent newId ref)
  match lookupNode d parent with
  | none => d
  | some n =>
    let cs :=
      match ref with
      | none => n.children ++ [newId]
      | some r =>
        if n.children.contains r then
          n.children.takeWhile (fun x => x != r) ++ [newId]
            ++ n.children.dropWhile (fun x => x != r)
        else n.children ++ [newId]
    setNode d parent { n with children := cs }

def domPrepend (d : Dom) (parent : Option Nat) (child : Nat) : Dom :=
  match parent with
  | none => d
  | some p =>
    let d := pushTrace d (.prepend p child)
    match lookupNode d p with
    | none => d
    | some n => setNode d p { n with children := child :: n.children }

/-- old.replaceWith(new): swap old for new in its parent's child list. -/
def domReplaceWith (d : Dom) (old : Option Nat) (newId : Nat) : Dom :=
  let d := pushTrace d (.replaceWith old newId)
  match old with
  | none => d
  | some o =>
    match findParent d o with
    | none => d
    | some p =>
      match lookupNode d p with
      | none => d
      | some n =>
        setNode d p
          { n with children := n.children.map (fun x => if x == o then newId else x) }

/-- Stringify a style/attribute map the way the DOM stores it; empty-string
style values denote absence and are dropped from the node state. -/
def stringAList (l : List (String × SVal)) : List (String × String) :=
  (l.map (fun p => (p.1, p.2.str))).filter (fun p => p.2 != "")

def flattenEvents (l : List (String × List Nat)) : List (String × Nat) :=
  l.foldr (fun p acc => (p.2.map (fun h => (p.1, h))) ++ acc) []

/-- Modelled from the spec: VNode.toHTMLNode (VNode.js is not in the
sources). Per the spec interface, materialize() builds a fresh live node for
the virtual node and its children in order, carrying the node's styles,
attributes and event listeners, and with save set it binds each virtual node
to its fresh live node. Building a detached fresh subtree performs no
mutation calls on the live output, so the trace is unchanged. -/
def toHTMLNodeAux : Nat → VNode → Dom → VNode × Nat × Dom
  | 0, v, d => (v.withDom (some d.fresh), d.fresh, d)
  | fuel + 1, v, d =>
    let id := d.fresh
    let d1 : Dom := { d with fresh := id + 1 }
    let res := v.body.foldl
      (fun (acc : List VNode × List Nat × Dom) c =>
        let r := toHTMLNodeAux fuel c acc.2.2
        (acc.1 ++ [r.1], acc.2.1 ++ [r.2.1], r.2.2))
      ([], [], d1)
    let dn : DomNode :=
      { style := stringAList v.styles
        attrs := stringAList v.attributes
        listeners := flattenEvents v.events
        children := res.2.1 }
    let d2 := setNode res.2.2 id dn
    (v.withBodyDom res.1 (some id), id, d2)

mutual

/-- Executable size of a virtual node, used as recursion fuel. -/
def vsize : VNode → Nat
  | .mk _ _ _ _ _ _ b _ _ => vsizeList b + 1

def vsizeList : List VNode → Nat
  | [] => 0
  | c :: cs => vsize c + vsizeList cs

end

def toHTMLNode (v : VNode) (d : Dom) : VNode × Nat × Dom :=
  toHTMLNodeAux (vsize v) v d

/-- The irreconcilability test of Reconciler.updateVNodeDOM, exactly the if
condition of the source: tags differ, or the previous node is a text node,
or the next node is a text node. -/
def irreconcilable (last next : VNode) : Bool :=
  last.tag != next.tag || last.type == VNodeType.text || next.type == VNodeType.text

/-- One iteration of the clearing style loop: a previous style key absent
from the next map is cleared on the live node. -/
def clearStep (S2 : List (String × SVal)) (nd : Option Nat) (d : Dom)
    (p : String × SVal) : Dom :=
  if (alistLookup S2 p.1).isNone then domSetStyle d nd p.1 "" else d

/-- One iteration of the writing style loop: a next style whose previous
value is missing or differs as a string is written to the live node. -/
def writeStep (S1 : List (String × SVal)) (nd : Option Nat) (d : Dom)
    (p : String × SVal) : Dom :=
  match alistLookup S1 p.1 with
  | some v => if v.str == p.2.str then d else domSetStyle d nd p.1 p.2.str
  | none => domSetStyle d nd p.1 p.2.str

/-- The two style loops of Reconciler.updateVNodeDOM: clear on the live node
every previous style key absent from the next map, then write every next
style whose previous value is missing or differs as a string. -/
def styleLoops (last next : VNode) (d : Dom) : Dom :=
  next.styles.foldl (writeStep last.styles last.dom)
    (last.styles.foldl (clearStep next.styles last.dom) d)

/-- One iteration of the event removal loop, as written in the source: for
the previous event name p.1, iterate over the handler indices of the NEXT
node's list for that name and remove lastVNode.events[i][j]. -/
def removeLoopStep (nextEvents : List (String × List Nat)) (nd : Option Nat)
    (d : Dom) (p : String × List Nat) : Dom :=
  (List.range ((alistLookup nextEvents p.1).getD []).length).foldl
    (fun d j => domRemoveEventListener d nd p.1 (p.2.get? j)) d

/-- One iteration of the event addition loop: attach every handler of the
next node for one event name. -/
def addLoopStep (nd : Option Nat) (d : Dom) (p : String × List Nat) : Dom :=
  p.2.foldl (fun d h => domAddEventListener d nd p.1 h) d

/-- The two event loops of Reconciler.updateVNodeDOM, as written in the
source: the removal loop runs over the event names of the previous node but
over the handler indices of the NEXT node's list for that name
(for j in vNode.events[i] with lastVNode.events[i][j] removed), then the
addition loop attaches every handler of the next node. -/
def eventLoops (last next : VNode) (d : Dom) : Dom :=
  next.events.foldl (addLoopStep last.dom)
    (last.events.foldl (removeLoopStep next.events last.dom) d)

/-- One iteration of the attribute removal loop. -/
def attrClearStep (A2 : List (String × SVal)) (nd : Option Nat) (d : Dom)
    (p : String × SVal) : Dom :=
  if (alistLookup A2 p.1).isNone then domRemoveAttribute d nd p.1 else d

/-- One iteration of the attribute writing loop. -/
def attrWriteStep (A1 : List (String × SVal)) (nd : Option Nat) (d : Dom)
    (p : String × SVal) : Dom :=
  match alistLookup A1 p.1 with
  | some v => if v.str == p.2.str then d else domSetAttribute d nd p.1 p.2.str
  | none => domSetAttribute d nd p.1 p.2.str

/-- The two attribute loops of Reconciler.updateVNodeDOM: remove previous
attribute names absent from the next map, then set every next attribute
whose previous value is missing or differs as a string. -/
def attrLoops (last next : VNode) (d : Dom) : Dom :=
  next.attributes.foldl (attrWriteStep last.attributes last.dom)
    (last.attributes.foldl (attrClearStep next.attributes last.dom) d)

/-- Search the (partially updated) next child list for the first sibling
whose key is truthy, matches the truthy key of the previous child; found
children are diffed in place by the recursive call. Returns whether a match
was found, the consumed key, the updated list and the document. -/
def firstKeyMatch (upd : VNode → VNode → Dom → VNode × Dom) (lastChild : VNode) :
    List VNode → Dom → Bool × Option Nat × List VNode × Dom
  | [], d => (false, none, [], d)
  | c :: cs, d =>
    if keyTruthy c.key && keyTruthy lastChild.key && c.key == lastChild.key then
      let r := upd lastChild c d
      (true, c.key, r.1 :: cs, r.2)
    else
      let r := firstKeyMatch upd lastChild cs d
      (r.1, r.2.1, c :: r.2.2.1, r.2.2.2)

/-- Second loop of the unequal-count regime: walk the next children by
index; a child whose key is falsy or not consumed is materialized fresh,
inserted after the previous next sibling's live node (or prepended for index
0), and its originating View's mount hook fires. Children are processed
against the progressively updated list, as the source mutates vNode.body in
place. -/
def keyedInsertLoop (lastDom : Option Nat) (keysUpdated : List (Option Nat)) :
    List VNode → List VNode → Dom → List VNode × Dom
  | prevRev, [], d => (prevRev.reverse, d)
  | prevRev, c :: rest, d =>
    if !keyTruthy c.key || (keyTruthy c.key && !keysUpdated.contains c.key) then
      let r := toHTMLNode c d
      let c2 := r.1
      let rootId := r.2.1
      let d := r.2.2
      let d :=
        match prevRev with
        | [] => domPrepend d lastDom rootId
        | pc :: _ =>
          match pc.dom with
          | none => d
          | some refId =>
            match findParent d refId with
            | none => d
            | some par => domInsertBefore d par rootId (nextSibling d refId)
      let d :=
        match c2.view with
        | some v => pushTrace d (.handleMount v)
        | none => d
      keyedInsertLoop lastDom keysUpdated (c2 :: prevRev) rest d
    else
      keyedInsertLoop lastDom keysUpdated (c :: prevRev) rest d

/-- Reconciler.updateVNodeDOM, fuel-indexed. The fuel only bounds the
recursion depth; the wrapper updateVNodeDOM supplies vsize of the previous
tree, which always suffices because every recursive call descends into a
child of the previous node. Returns the next tree with its dom bindings
filled in, together with the updated document. -/
def updAux : Nat → VNode → VNode → Dom → VNode × Dom
  | 0, _, next, d => (next, d)
  | fuel + 1, last, next, d =>
    if irreconcilable last next then
      let r := toHTMLNode next d
      (r.1, domReplaceWith r.2.2 last.dom r.2.1)
    else
      let d := styleLoops last next d
      let d := eventLoops last next d
      let d := attrLoops last next d
      let bodyRes :=
        if last.body.length != next.body.length then
          -- first loop: key-match each previous child or detach its live node
          let step1 := last.body.foldl
            (fun (acc : List VNode × List (Option Nat) × Dom) lastChild =>
              let r := firstKeyMatch (updAux fuel) lastChild acc.1 acc.2.2
              if r.1 then (r.2.2.1, acc.2.1 ++ [r.2.1], r.2.2.2)
              else
                let d2 :=
                  match lastChild.dom with
                  | none => acc.2.2
                  | some cd =>
                    match findParent acc.2.2 cd with
                    | none => acc.2.2
                    | some par => domRemoveChild acc.2.2 par cd
                (r.2.2.1, acc.2.1, d2))
            (next.body, [], d)
          keyedInsertLoop last.dom step1.2.1 [] step1.1 step1.2.2
        else
          let z := (last.body.zip next.body).foldl
            (fun (acc : List VNode × Dom) p =>
              let r := updAux fuel p.1 p.2 acc.2
              (acc.1 ++ [r.1], r.2)) ([], d)
          z
      let next2 := next.withBodyDom bodyRes.1 last.dom
      let d2 :=
        match next2.view with
        | some v => pushTrace bodyRes.2 (.handleInvalidation v)
        | none => bodyRes.2
      (next2, d2)

/-- Reconciler.updateVNodeDOM of the source, with enough fuel for the whole
previous tree. -/
def updateVNodeDOM (last next : VNode) (d : Dom) : VNode × Dom :=
  updAux (vsize last) last next d

/-! ## The rendering pipeline: View.renderToVNode -/

mutual

/-- A rendered virtual node as View.renderToVNode sees it: tag, body entries
(still possibly Views before the recursive pass) and the originating view
set on it. Styles, attributes and events play no role in the rendering
claims and are omitted from this layer. -/
inductive RVNode : Type where
  | mk : String → List RValue → Option Nat → RVNode

/-- A JavaScript value flowing through renderToVNode: an already built
virtual node, a View (by id in the store), null/undefined, or any other
non-node value such as a number. -/
inductive RValue : Type where
  | vnodeV : RVNode → RValue
  | viewV : Nat → RValue
  | nullV : RValue
  | numV : Nat → RValue

end

/-- A View instance as the renderer sees it: whether its body method calls
this.state.set, the value its body method returns, its lastVNode slot, and
whether its state.set slot currently holds the no-op replacement. -/
structure RView where
  callsSet : Bool
  bodyRet : RValue
  lastVNode : Option RVNode
  setNoop : Bool

/-- The mutable world of the rendering pipeline: the view store and the list
of views whose state.set actually dispatched during rendering. -/
structure RState where
  store : List (Nat × RView)
  dispatched : List Nat

def defaultRView : RView :=
  { callsSet := false, bodyRet := RValue.nullV, lastVNode := none, setNoop := false }

def getView (st : RState) (id : Nat) : RView :=
  match st.store.find? (fun p => p.1 == id) with
  | some p => p.2
  | none => defaultRView

def setView (st : RState) (id : Nat) (w : RView) : RState :=
  { st with store := st.store.map (fun p => if p.1 == id then (id, w) else p) }

def setViewNoop (st : RState) (id : Nat) (b : Bool) : RState :=
  setView st id { getView st id with setNoop := b }

def setViewLast (st : RState) (id : Nat) (n : Option RVNode) : RState :=
  setView st id { getView st id with lastVNode := n }

/-- Run a view's body method: if the body calls this.state.set and the set
slot has not been replaced by the no-op, the reducer dispatches and the
subscriber fires. -/
def execBody (st : RState) (id : Nat) : RState :=
  let w := getView st id
  if w.callsSet && !w.setNoop then { st with dispatched := st.dispatched ++ [id] }
  else st

/-- The while loop of View.renderToVNode: while the current value is a View,
record it and replace it with the result of its body method; under
ignoreStateChange the view's state.set is swapped for a no-op around the
body call and restored right after. -/
def chainLoop : Nat → RValue → List Nat → Bool → RState → List Nat × RValue × RState
  | 0, node, views, _, st => (views, node, st)
  | fuel + 1, node, views, ignore, st =>
    match node with
    | .viewV id =>
      let w := getView st id
      if ignore then
        let saved := w.setNoop
        let st := setViewNoop st id true
        let st := execBody st id
        let st := setViewNoop st id saved
        chainLoop fuel w.bodyRet (views ++ [id]) ignore st
      else
        let st := execBody st id
        chainLoop fuel w.bodyRet (views ++ [id]) ignore st
    | other => (views, other, st)

/-- views[i].lastVNode = node for every view recorded in the delegation
chain. -/
def saveAll (st : RState) (views : List Nat) (n : Option RVNode) : RState :=
  views.foldl (fun st id => setViewLast st id n) st

/-- One step of the children loop of View.renderToVNode: a child that is a
View or a VNode is rendered recursively with saveVNode true (a null result
is stored as a null body entry, as in the source); any other child throws
the render-contract error; after a throw the remaining children are
skipped and the error propagates. -/
def childStep
    (render : RValue → Bool → Bool → RState → RState × Except String (Option RVNode))
    (ignore : Bool)
    (acc : RState × Except String (List RValue)) (c : RValue) :
    RState × Except String (List RValue) :=
  match acc.2 with
  | .error e => (acc.1, .error e)
  | .ok done =>
    match c with
    | .nullV => (acc.1, .error "Unexpected child passed")
    | .numV _ => (acc.1, .error "Unexpected child passed")
    | c0 =>
      let rr := render c0 true ignore acc.1
      match rr.2 with
      | .ok res =>
        (rr.1, .ok (done ++
          [match res with | some n => RValue.vnodeV n | none => RValue.nullV]))
      | .error e => (rr.1, .error e)

/-- The continuation of View.renderToVNode after the while loop: a null
chain result is returned (and saved when saveVNode is set) without error;
a resolved VNode gets the innermost view recorded on it and its children
rendered via childStep, then is saved to every chain view when saveVNode is
set; any other chain result throws the render-contract error. -/
def afterChain
    (render : RValue → Bool → Bool → RState → RState × Except String (Option RVNode))
    (save ignore : Bool) (r : List Nat × RValue × RState) :
    RState × Except String (Option RVNode) :=
  match r.2.1 with
  | .nullV => ((if save then saveAll r.2.2 r.1 none else r.2.2), .ok none)
  | .vnodeV (RVNode.mk tag body _) =>
    let cres := body.foldl (childStep render ignore) (r.2.2, .ok [])
    match cres.2 with
    | .error e => (cres.1, .error e)
    | .ok newBody =>
      let node2 := RVNode.mk tag newBody r.1.getLast?
      ((if save then saveAll cres.1 r.1 (some node2) else cres.1), .ok (some node2))
  | _ =>
    (r.2.2, .error "Expected a VNode as the result of rendering the View (the rendering is recursive, so the error can be in the parent class or in the child class)")

/-- View.renderToVNode. An already built VNode is returned as is; otherwise
the body chain is resolved by chainLoop and handled by afterChain. Errors
carry the state at the point of the throw, as JavaScript exceptions leave
prior mutations in place. -/
def renderRV : Nat → RValue → Bool → Bool → RState → RState × Except String (Option RVNode)
  | 0, _, _, _, st => (st, .error "out of fuel")
  | fuel + 1, v, save, ignore, st =>
    match v with
    | .vnodeV n => (st, .ok (some n))
    | v0 =>
      afterChain (fun c s i t => renderRV fuel c s i t) save ignore
        (chainLoop (fuel + 1) v0 [] ignore st)

/-! ## View.mountTo / View.unmount and the scheduler -/

/-- The committed node of a mounted view, reduced to its live binding. -/
structure MVNode where
  dom : Option Nat
  deriving Repr, DecidableEq

/-- Mount target: either a live document node or a value that is not an
instance of Node. -/
inductive MTarget : Type where
  | node : Nat → MTarget
  | notNode : MTarget
  deriving Repr, DecidableEq

inductive MWork : Type where
  | mountWork : Nat → MWork
  | unmountWork : MWork
  deriving Repr, DecidableEq

/-- The lifecycle state of one view: its lastVNode slot, the scheduler queue
(Worker.js is not in the sources; modelled from the spec as a FIFO of
deferred units of work), a fresh live-node counter and the count of mount
hook invocations. -/
structure MState where
  lastVNode : Option MVNode
  queue : List MWork
  freshDom : Nat
  mountHooks : Nat
  deriving Repr, DecidableEq

/-- The derived mounted getter of View.js: lastVNode is a VNode and its dom
is a Node. -/
def mountedB (st : MState) : Bool :=
  match st.lastVNode with
  | some n => n.dom.isSome
  | none => false

/-- View.mountTo: throw if already mounted, throw if the parent is not a
Node, otherwise enqueue the mount unit of work. -/
def mountTo (st : MState) (parent : MTarget) : Except String MState :=
  if mountedB st then .error "The view is already mounted"
  else
    match parent with
    | .notNode => .error "The parent is not an instance of Node"
    | .node p => .ok { st with queue := st.queue ++ [.mountWork p] }

/-- View.unmount: throw if not mounted, otherwise enqueue the detach unit of
work. -/
def unmountView (st : MState) : Except String MState :=
  if !mountedB st then .error "The view is not mounted"
  else .ok { st with queue := st.queue ++ [.unmountWork] }

/-- Execute one queued unit of work. The mount work renders the view with
saveVNode true and then attaches the committed node under the target and
fires the mount hook; VNode.mountTo and VNode.unmount are not in the
sources. Modelled from the spec: attaching binds the committed node to a
fresh live node under the target, detaching removes that binding. -/
def runWork (st : MState) : MWork → MState
  | .mountWork _ =>
    { st with
        lastVNode := some { dom := some st.freshDom }
        freshDom := st.freshDom + 1
        mountHooks := st.mountHooks + 1 }
  | .unmountWork => { st with lastVNode := some { dom := none } }

/-- Drain the scheduler queue in FIFO order. -/
def runQueue (st : MState) : MState :=
  let res := st.queue.foldl runWork { st with queue := [] }
  res

def freshMState : MState :=
  { lastVNode := none, queue := [], freshDom := 0, mountHooks := 0 }

/-! ## View.applyViewProperties -/

/-- JavaScript Object.assign(target, source): every source binding is
written into the target in order, updating in place or appending. -/
def objAssign (tgt src : List (String × String)) : List (String × String) :=
  src.foldl (fun m p => alistSet m p.1 p.2) tgt

/-- A heap of style/attribute map objects, addressed by reference. -/
structure PHeap where
  maps : List (Nat × List (String × String))
  deriving Repr, DecidableEq

def heapGet (h : PHeap) (r : Nat) : List (String × String) :=
  match h.maps.find? (fun p => p.1 == r) with
  | some p => p.2
  | none => []

def heapSet (h : PHeap) (r : Nat) (m : List (String × String)) : PHeap :=
  { h with maps := h.maps.map (fun p => if p.1 == r then (r, m) else p) }

/-- A view as applyViewProperties sees it: references to its styles and
attributes objects, its event map and its key. -/
structure PView where
  stylesRef : Nat
  attrsRef : Nat
  events : List (String × List Nat)
  key : Option Nat
  deriving Repr, DecidableEq

/-- View.applyViewProperties with a View argument. Line by line:
this.styles = Object.assign(this.styles, view.styles) merges the source
styles into this view's styles object; then
this.attributes = Object.assign(this.styles, view.attributes) merges the
source attributes into that SAME styles object and points this.attributes
at it. The event loop calls this.addHandlerFor(name, view.events[name])
with an array as handler, which addHandlerFor rejects (typeof check), so
events are unchanged. A truthy source key is copied. -/
def applyViewProperties (this source : PView) (h : PHeap) : PView × PHeap :=
  let m1 := objAssign (heapGet h this.stylesRef) (heapGet h source.stylesRef)
  let h1 := heapSet h this.stylesRef m1
  let m2 := objAssign (heapGet h1 this.stylesRef) (heapGet h1 source.attrsRef)
  let h2 := heapSet h1 this.stylesRef m2
  let v2 := { this with attrsRef := this.stylesRef }
  let v3 := if keyTruthy source.key then { v2 with key := source.key } else v2
  (v3, h2)

/-! ## Basic lemmas about the document operations -/

theorem trace_setNode (d : Dom) (i : Nat) (n : DomNode) :
    (setNode d i n).trace = d.trace := by
  unfold setNode; split <;> rfl

theorem fresh_setNode (d : Dom) (i : Nat) (n : DomNode) :
    (setNode d i n).fresh = d.fresh := by
  unfold setNode; split <;> rfl

theorem trace_pushTrace (d : Dom) (c : DomCall) :
    (pushTrace d c).trace = d.trace ++ [c] := rfl

theorem nodes_pushTrace (d : Dom) (c : DomCall) :
    (pushTrace d c).nodes = d.nodes := rfl

theorem dom_withBodyDom (v : VNode) (b : List VNode) (x : Option Nat) :
    (v.withBodyDom b x).dom = x := by
  cases v; rfl

theorem dom_withDom (v : VNode) (x : Option Nat) :
    (v.withDom x).dom = x := by
  cases v; rfl

/-- Materializing a fresh subtree never mutates the live output: the trace
is unchanged. -/
theorem trace_toHTMLNodeAux (fuel : Nat) :
    ∀ (v : VNode) (d : Dom), (toHTMLNodeAux fuel v d).2.2.trace = d.trace := by
  induction fuel with
  | zero => intro v d; rfl
  | succ fuel ih =>
    intro v d
    show (let id := d.fresh
      let d1 : Dom := { d with fresh := id + 1 }
      let res := v.body.foldl
        (fun (acc : List VNode × List Nat × Dom) c =>
          let r := toHTMLNodeAux fuel c acc.2.2
          (acc.1 ++ [r.1], acc.2.1 ++ [r.2.1], r.2.2))
        ([], [], d1)
      let dn : DomNode :=
        { style := stringAList v.styles
          attrs := stringAList v.attributes
          listeners := flattenEvents v.events
          children := res.2.1 }
      let d2 := setNode res.2.2 id dn
      (v.withBodyDom res.1 (some id), id, d2)).2.2.trace = d.trace
    simp only []
    rw [trace_setNode]
    have hfold : ∀ (l : List VNode) (acc : List VNode × List Nat × Dom),
        (l.foldl (fun (acc : List VNode × List Nat × Dom) c =>
          let r := toHTMLNodeAux fuel c acc.2.2
          (acc.1 ++ [r.1], acc.2.1 ++ [r.2.1], r.2.2)) acc).2.2.trace
          = acc.2.2.trace := by
      intro l
      induction l with
      | nil => intro acc; rfl
      | cons c cs ihl =>
        intro acc
        rw [List.foldl_cons, ihl]
        exact ih c acc.2.2
    exact hfold v.body ([], [], { d with fresh := d.fresh + 1 })

theorem trace_toHTMLNode (v : VNode) (d : Dom) :
    (toHTMLNode v d).2.2.trace = d.trace :=
  trace_toHTMLNodeAux (vsize v) v d

/-- The root of a materialized subtree is always the current fresh id. -/
theorem rootId_toHTMLNodeAux (fuel : Nat) (v : VNode) (d : Dom) :
    (toHTMLNodeAux fuel v d).2.1 = d.fresh := by
  cases fuel <;> rfl

/-- The materialized virtual node is bound to the fresh live node. -/
theorem dom_toHTMLNodeAux (fuel : Nat) (v : VNode) (d : Dom) :
    (toHTMLNodeAux fuel v d).1.dom = some d.fresh := by
  cases fuel with
  | zero => exact dom_withDom v (some d.fresh)
  | succ fuel => exact dom_withBodyDom v _ (some d.fresh)

theorem trace_domReplaceWith (d : Dom) (old : Option Nat) (newId : Nat) :
    (domReplaceWith d old newId).trace = d.trace ++ [DomCall.replaceWith old newId] := by
  unfold domReplaceWith
  cases old with
  | none => rfl
  | some o =>
    simp only []
    cases h1 : findParent (pushTrace d (DomCall.replaceWith (some o) newId)) o with
    | none => rfl
    | some p =>
      simp only []
      cases h2 : lookupNode (pushTrace d (DomCall.replaceWith (some o) newId)) p with
      | none => rfl
      | some n => simp only [trace_setNode]; rfl

/-! ## Concrete inputs used by the claims -/

/-- An element node with the given key, maps, children and bindings. -/
def elNode (key : Option Nat) (styles attrs : List (String × SVal))
    (events : List (String × List Nat)) (body : List VNode)
    (view dom : Option Nat) : VNode :=
  VNode.mk "div" VNodeType.element key styles attrs events body view dom

/-- Previous node of the event-detach scenario: one click handler (7),
bound to live node 2. -/
def prevC1 : VNode := elNode none [] [] [("click", [7])] [] none (some 2)

/-- Next node of the event-detach scenario: no events at all. -/
def nextC1 : VNode := elNode none [] [] [] [] none none

/-- Live document for the event-detach scenario: node 2 with the click
handler 7 attached. -/
def dC1 : Dom :=
  { nodes := [(2, { style := [], attrs := [], listeners := [("click", 7)], children := [] })]
    fresh := 100, trace := [] }

/-- Live document of the keyed-reorder scenario: parent 1 holding A's node
10 and B's node 11 in that order. -/
def dC2 : Dom :=
  { nodes :=
      [(1, { style := [], attrs := [], listeners := [], children := [10, 11] }),
       (10, { style := [], attrs := [], listeners := [], children := [] }),
       (11, { style := [], attrs := [], listeners := [], children := [] })]
    fresh := 20, trace := [] }

def aPrev : VNode := elNode (some 1) [] [] [] [] none (some 10)
def bPrev : VNode := elNode (some 2) [] [] [] [] none (some 11)
def parentPrev : VNode := elNode none [] [] [] [aPrev, bPrev] none (some 1)
def aNext : VNode := elNode (some 1) [] [] [] [] none none
def bNext : VNode := elNode (some 2) [] [] [] [] none none

/-- C carries key 3 and originates from View 77, so its mount hook is
observable. -/
def cNext : VNode := elNode (some 3) [] [] [] [] (some 77) none

def parentNext : VNode := elNode none [] [] [] [bNext, aNext, cNext] none none

/-- A tree consisting of one element with a click handler, bound to live
node 0, used for the identical-reconcile scenario. -/
def tEv : VNode := elNode none [] [] [("click", [5])] [] none (some 0)

def dEv : Dom :=
  { nodes := [(0, { style := [], attrs := [], listeners := [("click", 5)], children := [] })]
    fresh := 50, trace := [] }

/-- A text node with tag "span", bound to live node 3. -/
def tText : VNode := VNode.mk "span" VNodeType.text none [] [] [] [] none (some 3)

def dText : Dom :=
  { nodes :=
      [(3, { style := [], attrs := [], listeners := [], children := [] }),
       (9, { style := [], attrs := [], listeners := [], children := [3] })]
    fresh := 5, trace := [] }

/-! ## C1: event handler detaching -/

/-- C1 (claim refuted by the code, event-removal loop indexes the next
node's handler list): with previous events {click: [handler 7]} attached to
live node 2 and next events empty, updateVNodeDOM takes the in-place path
but performs no removeEventListener call at all, and handler 7 stays
attached to the live node — the for j in vNode.events[i] loop iterates zero
times because vNode.events.click is undefined, although the claim demands
that every previously attached handler be detached unconditionally. -/
theorem claim1_event_detach_skipped :
    prevC1.events = [("click", [7])] ∧
    nextC1.events = [] ∧
    irreconcilable prevC1 nextC1 = false ∧
    (updateVNodeDOM prevC1 nextC1 dC1).2 = dC1 ∧
    lookupNode dC1 2 =
      some { style := [], attrs := [], listeners := [("click", 7)], children := [] } := by
  refine ⟨rfl, rfl, by decide, by decide, by decide⟩

/-! ## C2: keyed children reconciliation -/

/-- C2 counterexample: with previous children A(key 1), B(key 2) live as
nodes 10, 11 and next children B(key 2), A(key 1), C(key 3), the live
child order of parent 1 after reconciliation is [10, 20, 11], that is
A, C, B — not B, A, C as the claim states: matched keyed children are
diffed in place and never moved, and C is inserted after A's live node. -/
theorem claim2_counterexample :
    (lookupNode (updateVNodeDOM parentPrev parentNext dC2).2 1).map DomNode.children
      = some [10, 20, 11] ∧
    ¬ (lookupNode (updateVNodeDOM parentPrev parentNext dC2).2 1).map DomNode.children
      = some [11, 10, 20] := by
  refine ⟨by decide, by decide⟩

/-- C2 as amended: in the keyed regime of the scenario, A and B are diffed
in place (their next nodes reuse live nodes 10 and 11, which keep their
original relative order), C is materialized fresh as live node 20 — absent
from the document before, present after — inserted after A's live node so
that the final order is A, C, B, and the only mutation calls are that
insertion and C's post-mount hook on its originating View 77. -/
theorem claim2_amended_keyed :
    (lookupNode (updateVNodeDOM parentPrev parentNext dC2).2 1).map DomNode.children
      = some [10, 20, 11] ∧
    ((updateVNodeDOM parentPrev parentNext dC2).1.body.map VNode.dom)
      = [some 11, some 10, some 20] ∧
    lookupNode dC2 20 = none ∧
    (lookupNode (updateVNodeDOM parentPrev parentNext dC2).2 20).isSome = true ∧
    (updateVNodeDOM parentPrev parentNext dC2).2.trace
      = [DomCall.insertBefore 1 20 (some 11), DomCall.handleMount 77] := by
  refine ⟨by decide, by decide, by decide, by decide, by decide⟩

/-! ## C4: the rebuild condition -/

/-- C4 counterexample: two identical text nodes with the same tag "span".
The claim says this pair is diffed in place (only exactly one Text kind
should rebuild), but the source condition reads lastVNode.type === text OR
vNode.type === text, so the pair is irreconcilable: the live node 3 is
replaced by a freshly materialized node 5 and the next tree is bound to the
fresh node, not to the previous live node. -/
theorem claim4_counterexample :
    tText.type = VNodeType.text ∧ tText.tag = tText.tag ∧
    (updateVNodeDOM tText tText dText).2.trace = [DomCall.replaceWith (some 3) 5] ∧
    (updateVNodeDOM tText tText dText).1.dom = some 5 ∧
    tText.dom = some 3 ∧ ¬ (updateVNodeDOM tText tText dText).1.dom = tText.dom := by
  refine ⟨rfl, rfl, by decide, by decide, rfl, by decide⟩

/-- C4 as amended: updateVNodeDOM discards the previous live subtree and
materializes next fresh exactly when the tags differ OR AT LEAST ONE of
the two nodes has kind Text (both-Text pairs also rebuild); the rebuild
performs no diffing call — the only trace entry added is the replaceWith of
the previous live binding by the fresh node, to which next becomes bound.
In every other case the pair is diffed in place and next inherits the
previous live binding. -/
theorem claim4_amended_rebuild (last next : VNode) (d : Dom) :
    if irreconcilable last next then
      (updateVNodeDOM last next d).2.trace
          = d.trace ++ [DomCall.replaceWith last.dom d.fresh]
        ∧ (updateVNodeDOM last next d).1.dom = some d.fresh
    else (updateVNodeDOM last next d).1.dom = last.dom := by
  cases last with
  | mk t ty k s a e b v dm =>
    show if irreconcilable (VNode.mk t ty k s a e b v dm) next then _ else _
    by_cases hirr : irreconcilable (VNode.mk t ty k s a e b v dm) next
    · rw [if_pos hirr]
      have hu : updateVNodeDOM (VNode.mk t ty k s a e b v dm) next d
          = (let r := toHTMLNode next d
             (r.1, domReplaceWith r.2.2 (VNode.mk t ty k s a e b v dm).dom r.2.1)) := by
        show updAux (vsizeList b + 1) (VNode.mk t ty k s a e b v dm) next d = _
        rw [updAux]
        rw [if_pos hirr]
      constructor
      · rw [hu]
        simp only []
        rw [trace_domReplaceWith, trace_toHTMLNode]
        have : (toHTMLNode next d).2.1 = d.fresh := rootId_toHTMLNodeAux _ next d
        rw [this]
      · rw [hu]
        simp only []
        exact dom_toHTMLNodeAux _ next d
    · rw [if_neg hirr]
      show (updAux (vsizeList b + 1) (VNode.mk t ty k s a e b v dm) next d).1.dom
        = (VNode.mk t ty k s a e b v dm).dom
      rw [updAux]
      rw [if_neg hirr]
      simp only []
      exact dom_withBodyDom next _ _

/-! ## C3: reconciling a tree against an identical copy -/

/-- C3 counterexample: reconciling the single-node tree tEv (one click
handler, live node 0) against an identical copy performs an event-handler
detach call and an attach call on the live node, although the claim states
that no event-handler detach/attach calls happen at all. -/
theorem claim3_counterexample :
    (updateVNodeDOM tEv tEv dEv).2.trace
      = [DomCall.removeEventListener 0 "click" (some 5),
         DomCall.addEventListener 0 "click" 5] ∧
    ¬ (updateVNodeDOM tEv tEv dEv).2.trace = [] := by
  refine ⟨by decide, by decide⟩

/-! ## C6: render-contract errors of View.renderToVNode -/

/-- Store with a single view whose body method returns the number 42. -/
def st6num : RState :=
  { store := [(0, { callsSet := false, bodyRet := RValue.numV 42,
                    lastVNode := none, setNoop := false })]
    dispatched := [] }

/-- Store with a two-view delegation chain terminating in the number 7. -/
def st6chain : RState :=
  { store :=
      [(0, { callsSet := false, bodyRet := RValue.viewV 1,
             lastVNode := none, setNoop := false }),
       (1, { callsSet := false, bodyRet := RValue.numV 7,
             lastVNode := none, setNoop := false })]
    dispatched := [] }

/-- Store where the root view renders to a node with a number child. -/
def st6child : RState :=
  { store := [(0, { callsSet := false,
                    bodyRet := RValue.vnodeV (RVNode.mk "div" [RValue.numV 3] none),
                    lastVNode := none, setNoop := false })]
    dispatched := [] }

/-- Store where the root view renders to a node whose child is a View whose
own resolved node has a number child. -/
def st6viewChild : RState :=
  { store :=
      [(0, { callsSet := false,
             bodyRet := RValue.vnodeV (RVNode.mk "div" [RValue.viewV 1] none),
             lastVNode := none, setNoop := false }),
       (1, { callsSet := false,
             bodyRet := RValue.vnodeV (RVNode.mk "span" [RValue.numV 3] none),
             lastVNode := none, setNoop := false })]
    dispatched := [] }

/-- Store where the root view renders to a node whose child is an already
built VNode literal holding a number grandchild. -/
def st6deep : RState :=
  { store :=
      [(0, { callsSet := false,
             bodyRet := RValue.vnodeV
               (RVNode.mk "div"
                 [RValue.vnodeV (RVNode.mk "span" [RValue.numV 7] none)] none),
             lastVNode := none, setNoop := false })]
    dispatched := [] }

/-- Store with a single view whose body method returns null. -/
def st6null : RState :=
  { store := [(0, { callsSet := false, bodyRet := RValue.nullV,
                    lastVNode := none, setNoop := false })]
    dispatched := [] }

/-- C6 counterexample: a child entry that is neither a View nor a VNode is
NOT rejected at every level of the resulting tree. When the root view's
node has an already-built VNode child, the recursive call returns that
child through the view-instanceof-VNode fast path without inspecting its
own children, so a number grandchild nested inside it renders successfully
instead of failing — contradicting the claim that the check runs at every
tree level. -/
theorem claim6_counterexample :
    (renderRV 10 (RValue.viewV 0) false false st6deep).2
      = Except.ok (some (RVNode.mk "div"
          [RValue.vnodeV (RVNode.mk "span" [RValue.numV 7] none)] (some 0))) := rfl

/-- C6 as amended: a body chain terminating in a non-empty non-VNode value
(a number) fails with the render-contract error, also through a multi-view
delegation chain; a direct child entry of a node resolved from a View's
body chain that is neither a View nor a VNode fails with the same error
kind, and the check recurses through View children (a bad child of a View
child's resolved node still fails); but children that are already VNodes
are passed through unchecked; and a body chain terminating in an empty
value returns null without raising. -/
theorem claim6_amended_contract :
    (renderRV 10 (RValue.viewV 0) false false st6num).2
      = Except.error "Expected a VNode as the result of rendering the View (the rendering is recursive, so the error can be in the parent class or in the child class)" ∧
    (renderRV 10 (RValue.viewV 0) false false st6chain).2
      = Except.error "Expected a VNode as the result of rendering the View (the rendering is recursive, so the error can be in the parent class or in the child class)" ∧
    (renderRV 10 (RValue.viewV 0) false false st6child).2
      = Except.error "Unexpected child passed" ∧
    (renderRV 10 (RValue.viewV 0) false false st6viewChild).2
      = Except.error "Unexpected child passed" ∧
    (renderRV 10 (RValue.viewV 0) false false st6null).2 = Except.ok none := by
  exact ⟨rfl, rfl, rfl, rfl, rfl⟩

/-! ## C7: mount and unmount guards -/

/-- C7: from a fresh component, unmount fails with the invalid-operation
error; mount onto a target that is not a Node fails with the same error
kind; a first mount onto a valid target succeeds by enqueueing the mount
work; after the scheduler runs the work (so the component is mounted), a
second and a third mount both fail with the invalid-operation error and
leave the state unchanged — no second mounting is enqueued or performed. -/
theorem claim7_mount_guards :
    unmountView freshMState = Except.error "The view is not mounted" ∧
    mountTo freshMState MTarget.notNode
      = Except.error "The parent is not an instance of Node" ∧
    mountTo freshMState (MTarget.node 0)
      = Except.ok { lastVNode := none, queue := [MWork.mountWork 0],
                    freshDom := 0, mountHooks := 0 } ∧
    mountedB (runQueue { lastVNode := none, queue := [MWork.mountWork 0],
                         freshDom := 0, mountHooks := 0 }) = true ∧
    (runQueue { lastVNode := none, queue := [MWork.mountWork 0],
                freshDom := 0, mountHooks := 0 }).mountHooks = 1 ∧
    mountTo (runQueue { lastVNode := none, queue := [MWork.mountWork 0],
                        freshDom := 0, mountHooks := 0 }) (MTarget.node 0)
      = Except.error "The view is already mounted" ∧
    mountTo (runQueue { lastVNode := none, queue := [MWork.mountWork 0],
                        freshDom := 0, mountHooks := 0 }) (MTarget.node 5)
      = Except.error "The view is already mounted" := by
  refine ⟨rfl, rfl, rfl, rfl, rfl, rfl, rfl⟩

/-! ## C9: lastVNode saving for child views under saveVNode false -/

/-- Store for the saveVNode scenario: root view 0 renders to a div with the
child view 1, which renders to an empty span; their lastVNode slots start
at arbitrary values. -/
def st9 (l0 l1 : Option RVNode) : RState :=
  { store :=
      [(0, { callsSet := false,
             bodyRet := RValue.vnodeV (RVNode.mk "div" [RValue.viewV 1] none),
             lastVNode := l0, setNoop := false }),
       (1, { callsSet := false,
             bodyRet := RValue.vnodeV (RVNode.mk "span" [] none),
             lastVNode := l1, setNoop := false })]
    dispatched := [] }

/-- C9: rendering the root with saveVNode false (as toString and
forceInvalidate do) leaves the root delegation chain's lastVNode untouched,
but the child view's lastVNode is still overwritten with its freshly
rendered node, whatever it held before, because the recursive call for
children always passes saveVNode true. -/
theorem claim9_child_save (l0 l1 : Option RVNode) :
    (getView (renderRV 10 (RValue.viewV 0) false false (st9 l0 l1)).1 0).lastVNode
      = l0 ∧
    (getView (renderRV 10 (RValue.viewV 0) false false (st9 l0 l1)).1 1).lastVNode
      = some (RVNode.mk "span" [] (some 1)) := by
  exact ⟨rfl, rfl⟩

/-! ## Generic fold and association list lemmas -/

theorem foldl_proj_inv {α β γ : Type} (f : β → α → β) (g : β → γ) (l : List α)
    (h : ∀ a ∈ l, ∀ b, g (f b a) = g b) : ∀ b, g (l.foldl f b) = g b := by
  induction l with
  | nil => intro b; rfl
  | cons x xs ih =>
    intro b
    rw [List.foldl_cons, ih (fun a ha b => h a (List.mem_cons_of_mem x ha) b)]
    exact h x (List.mem_cons_self x xs) b

theorem foldl_id_of_mem {α β : Type} (f : β → α → β) (l : List α)
    (h : ∀ a ∈ l, ∀ b, f b a = b) : ∀ b, l.foldl f b = b :=
  foldl_proj_inv f id l h

/-- Updating one key of an association list by mapping over it: the find?
result for any key. -/
theorem find?_mapSet {α : Type} (l : List (Nat × α)) (i j : Nat) (w : α) :
    (l.map (fun p => if p.1 == i then (i, w) else p)).find? (fun p => p.1 == j)
      = if i = j then (l.find? (fun p => p.1 == i)).map (fun _ => (i, w))
        else l.find? (fun p => p.1 == j) := by
  induction l with
  | nil => by_cases h : i = j <;> simp [h]
  | cons p rest ih =>
    rw [List.map_cons]
    by_cases hp : p.1 = i
    · rw [if_pos (beq_iff_eq.mpr hp)]
      by_cases hij : i = j
      · subst hij
        simp only [List.find?]
        rw [show ((i, w).1 == i) = true from beq_self_eq_true i,
          show (p.1 == i) = true from beq_iff_eq.mpr hp]
        simp [hp]
      · simp only [List.find?]
        rw [show ((i, w).1 == j) = false by simpa using hij,
          show (p.1 == j) = false by simpa using (hp ▸ hij : ¬ p.1 = j)]
        rw [ih]
        simp [hij]
    · rw [if_neg (by simpa using hp : ¬ (p.1 == i) = true)]
      by_cases hpj : p.1 = j
      · have hij : ¬ i = j := fun hc => hp (by rw [hpj, hc])
        simp only [List.find?]
        rw [show (p.1 == j) = true from beq_iff_eq.mpr hpj]
        rw [if_neg hij]
      · simp only [List.find?]
        rw [show (p.1 == j) = false by simpa using hpj]
        rw [ih]
        by_cases hij : i = j
        · rw [if_pos hij, if_pos hij,
            show (p.1 == i) = false by simpa using hp]
        · rw [if_neg hij, if_neg hij]

/-- find? after a set-or-append update of an association list. -/
theorem find?_setAssoc {α : Type} (l : List (Nat × α)) (i j : Nat) (w : α) :
    ((if (l.find? (fun p => p.1 == i)).isSome then
        l.map (fun p => if p.1 == i then (i, w) else p)
      else l ++ [(i, w)]).find? (fun p => p.1 == j))
      = if i = j then some (i, w) else l.find? (fun p => p.1 == j) := by
  by_cases hpres : (l.find? (fun p => p.1 == i)).isSome
  · rw [if_pos hpres, find?_mapSet]
    by_cases hij : i = j
    · rw [if_pos hij, if_pos hij]
      cases hfind : l.find? (fun p => p.1 == i) with
      | none => rw [hfind] at hpres; simp at hpres
      | some q => simp
    · rw [if_neg hij, if_neg hij]
  · rw [if_neg hpres, List.find?_append]
    by_cases hij : i = j
    · subst hij
      have hnone : l.find? (fun p => p.1 == i) = none := by
        cases hfind : l.find? (fun p => p.1 == i) with
        | none => rfl
        | some q => rw [hfind] at hpres; exact absurd rfl hpres
      rw [hnone, if_pos rfl]
      simp [List.find?]
    · rw [if_neg hij]
      cases hfind : l.find? (fun p => p.1 == j) with
      | some q => simp
      | none =>
        simp only [List.find?]
        rw [show ((i, w).1 == j) = false by simpa using hij]
        rfl

theorem lookupNode_setNode (d : Dom) (i : Nat) (w : DomNode) (j : Nat) :
    lookupNode (setNode d i w) j = if i = j then some w else lookupNode d j := by
  have h := find?_setAssoc d.nodes i j w
  unfold lookupNode setNode
  by_cases hpres : (d.nodes.find? (fun p => p.1 == i)).isSome
  · rw [if_pos hpres] at h ⊢
    show (match (d.nodes.map (fun p => if p.1 == i then (i, w) else p)).find? (fun p => p.1 == j) with
      | some p => some p.2 | none => none) = _
    rw [h]
    by_cases hij : i = j <;> simp [hij]
  · rw [if_neg hpres] at h ⊢
    show (match (d.nodes ++ [(i, w)]).find? (fun p => p.1 == j) with
      | some p => some p.2 | none => none) = _
    rw [h]
    by_cases hij : i = j <;> simp [hij]

theorem lookupNode_pushTrace (d : Dom) (c : DomCall) (j : Nat) :
    lookupNode (pushTrace d c) j = lookupNode d j := rfl

/-! ## C8: state.set replacement during an ignoreStateChange render pass -/

theorem getView_setView (st : RState) (i : Nat) (w : RView) (j : Nat) :
    getView (setView st i w) j
      = if i = j then
          (if (st.store.find? (fun p => p.1 == i)).isSome then w else getView st j)
        else getView st j := by
  unfold getView setView
  show (match (st.store.map (fun p => if p.1 == i then (i, w) else p)).find?
        (fun p => p.1 == j) with
    | some p => p.2 | none => defaultRView) = _
  rw [find?_mapSet]
  by_cases hij : i = j
  · rw [if_pos hij, if_pos hij]
    cases hfind : st.store.find? (fun p => p.1 == i) with
    | none =>
      subst hij
      rw [hfind]
      simp
    | some q =>
      subst hij
      rw [hfind]
      simp
  · rw [if_neg hij, if_neg hij]

theorem dispatched_setView (st : RState) (i : Nat) (w : RView) :
    (setView st i w).dispatched = st.dispatched := rfl

theorem store_execBody (st : RState) (id : Nat) :
    (execBody st id).store = st.store := by
  simp only [execBody]
  split <;> rfl

theorem getView_execBody (st : RState) (id j : Nat) :
    getView (execBody st id) j = getView st j := by
  unfold getView
  rw [store_execBody]

theorem find?_isSome_setView (st : RState) (i : Nat) (w : RView) (j : Nat) :
    ((setView st i w).store.find? (fun p => p.1 == j)).isSome
      = (st.store.find? (fun p => p.1 == j)).isSome := by
  show ((st.store.map (fun p => if p.1 == i then (i, w) else p)).find?
      (fun p => p.1 == j)).isSome = _
  rw [find?_mapSet]
  by_cases hij : i = j
  · rw [if_pos hij]
    subst hij
    cases st.store.find? (fun p => p.1 == i) <;> simp
  · rw [if_neg hij]

/-- Replacing a view's state.set with the no-op suppresses the dispatch its
body method would otherwise perform. -/
theorem execBody_after_noop (st : RState) (id : Nat) :
    execBody (setViewNoop st id true) id = setViewNoop st id true := by
  unfold execBody
  have hgv := getView_setView st id { getView st id with setNoop := true } id
  rw [if_pos rfl] at hgv
  by_cases hpres : (st.store.find? (fun p => p.1 == id)).isSome
  · rw [if_pos hpres] at hgv
    rw [show setViewNoop st id true = setView st id { getView st id with setNoop := true } from rfl, hgv]
    simp
  · rw [if_neg hpres] at hgv
    rw [show setViewNoop st id true = setView st id { getView st id with setNoop := true } from rfl, hgv]
    have : getView st id = defaultRView := by
      unfold getView
      have : st.store.find? (fun p => p.1 == id) = none :=
        Option.not_isSome_iff_eq_none.mp hpres
      rw [this]
    rw [this]
    simp [defaultRView]

/-- The save-replace-restore dance around a body call leaves every view's
state.set slot exactly as it was. -/
theorem setViewNoop_restore (st : RState) (id : Nat) (j : Nat) :
    (getView (setViewNoop (setViewNoop st id true) id ((getView st id).setNoop)) j).setNoop
      = (getView st j).setNoop := by
  show (getView (setView (setView st id { getView st id with setNoop := true }) id
      { getView (setView st id { getView st id with setNoop := true }) id with
          setNoop := (getView st id).setNoop }) j).setNoop = _
  rw [getView_setView]
  by_cases hij : id = j
  · subst hij
    rw [if_pos rfl, find?_isSome_setView]
    by_cases hpres : (st.store.find? (fun p => p.1 == id)).isSome
    · rw [if_pos hpres]
    · rw [if_neg hpres, getView_setView, if_pos rfl, if_neg hpres]
  · rw [if_neg hij, getView_setView, if_neg hij]

theorem dispatched_setViewNoop (st : RState) (id : Nat) (b : Bool) :
    (setViewNoop st id b).dispatched = st.dispatched := rfl

/-- chainLoop under ignoreStateChange: no dispatch happens and every view's
state.set slot is restored. -/
theorem chainLoop_ignore_inv (fuel : Nat) :
    ∀ (node : RValue) (views : List Nat) (st : RState),
      ((chainLoop fuel node views true st).2.2.dispatched = st.dispatched)
      ∧ ∀ j, (getView (chainLoop fuel node views true st).2.2 j).setNoop
          = (getView st j).setNoop := by
  induction fuel with
  | zero => intro node views st; exact ⟨rfl, fun j => rfl⟩
  | succ fuel ih =>
    intro node views st
    cases node with
    | viewV id =>
      have hred : chainLoop (fuel + 1) (RValue.viewV id) views true st
          = chainLoop fuel (getView st id).bodyRet (views ++ [id]) true
              (setViewNoop (execBody (setViewNoop st id true) id) id
                ((getView st id).setNoop)) := rfl
      rw [hred, execBody_after_noop]
      refine ⟨?_, ?_⟩
      · rw [(ih _ _ _).1]
        rfl
      · intro j
        rw [(ih _ _ _).2 j, setViewNoop_restore]
    | vnodeV n => exact ⟨rfl, fun j => rfl⟩
    | nullV => exact ⟨rfl, fun j => rfl⟩
    | numV n => exact ⟨rfl, fun j => rfl⟩

theorem getView_setViewLast (st : RState) (i : Nat) (n : Option RVNode) (j : Nat) :
    (getView (setViewLast st i n) j).setNoop = (getView st j).setNoop := by
  show (getView (setView st i { getView st i with lastVNode := n }) j).setNoop = _
  rw [getView_setView]
  by_cases hij : i = j
  · subst hij
    rw [if_pos rfl]
    by_cases hpres : (st.store.find? (fun p => p.1 == i)).isSome
    · rw [if_pos hpres]
    · rw [if_neg hpres]
  · rw [if_neg hij]

theorem saveAll_inv (views : List Nat) (st : RState) (n : Option RVNode) :
    ((saveAll st views n).dispatched = st.dispatched)
    ∧ ∀ j, (getView (saveAll st views n) j).setNoop = (getView st j).setNoop := by
  constructor
  · exact foldl_proj_inv (fun st id => setViewLast st id n) RState.dispatched views
      (fun a _ b => rfl) st
  · intro j
    exact foldl_proj_inv (fun st id => setViewLast st id n)
      (fun st => (getView st j).setNoop) views
      (fun a _ b => getView_setViewLast b a n j) st

/-- Invariant of the children fold, generic in the step function. -/
theorem childFold_inv
    (step : (RState × Except String (List RValue)) → RValue
      → (RState × Except String (List RValue)))
    (hstep : ∀ acc c, ((step acc c).1.dispatched = acc.1.dispatched)
      ∧ ∀ j, (getView (step acc c).1 j).setNoop = (getView acc.1 j).setNoop) :
    ∀ (body : List RValue) (acc : RState × Except String (List RValue)),
      (((body.foldl step acc).1.dispatched = acc.1.dispatched)
        ∧ ∀ j, (getView (body.foldl step acc).1 j).setNoop
            = (getView acc.1 j).setNoop) := by
  intro body
  induction body with
  | nil => intro acc; exact ⟨rfl, fun j => rfl⟩
  | cons c cs ihl =>
    intro acc
    rw [List.foldl_cons]
    refine ⟨?_, ?_⟩
    · rw [(ihl (step acc c)).1, (hstep acc c).1]
    · intro j
      rw [(ihl (step acc c)).2 j, (hstep acc c).2 j]

/-- Invariant of afterChain relative to the chain result state, given the
invariant for the recursive render function. -/
theorem afterChain_inv
    (render : RValue → Bool → Bool → RState → RState × Except String (Option RVNode))
    (hrender : ∀ c s t, ((render c s true t).1.dispatched = t.dispatched)
      ∧ ∀ j, (getView (render c s true t).1 j).setNoop = (getView t j).setNoop)
    (save : Bool) (r : List Nat × RValue × RState) :
    ((afterChain render save true r).1.dispatched = r.2.2.dispatched)
    ∧ ∀ j, (getView (afterChain render save true r).1 j).setNoop
        = (getView r.2.2 j).setNoop := by
  have hpair : ∀ (rr : RState × Except String (Option RVNode)) (done : List RValue),
      ((match rr.2 with
        | Except.ok res => (rr.1, Except.ok (done ++
            [match res with | some n => RValue.vnodeV n | none => RValue.nullV]))
        | Except.error e => (rr.1, Except.error e))
        : RState × Except String (List RValue)).1 = rr.1 := by
    intro rr done
    obtain ⟨a, b⟩ := rr
    cases b <;> rfl
  have hstep : ∀ acc c, ((childStep render true acc c).1.dispatched = acc.1.dispatched)
      ∧ ∀ j, (getView (childStep render true acc c).1 j).setNoop
          = (getView acc.1 j).setNoop := by
    intro acc c
    obtain ⟨ast, ae⟩ := acc
    cases ae with
    | error e => exact ⟨rfl, fun j => rfl⟩
    | ok done =>
      cases c with
      | nullV => exact ⟨rfl, fun j => rfl⟩
      | numV k => exact ⟨rfl, fun j => rfl⟩
      | viewV id =>
        have he : (childStep render true (ast, Except.ok done) (RValue.viewV id)).1
            = (render (RValue.viewV id) true true ast).1 :=
          hpair (render (RValue.viewV id) true true ast) done
        rw [he]
        exact ⟨(hrender _ _ _).1, (hrender _ _ _).2⟩
      | vnodeV n =>
        have he : (childStep render true (ast, Except.ok done) (RValue.vnodeV n)).1
            = (render (RValue.vnodeV n) true true ast).1 :=
          hpair (render (RValue.vnodeV n) true true ast) done
        rw [he]
        exact ⟨(hrender _ _ _).1, (hrender _ _ _).2⟩
  cases hn : r.2.1 with
  | nullV =>
    have hred : afterChain render save true r
        = ((if save then saveAll r.2.2 r.1 none else r.2.2), .ok none) := by
      unfold afterChain
      rw [hn]
    rw [hred]
    cases save with
    | true =>
      exact ⟨(saveAll_inv r.1 r.2.2 none).1, (saveAll_inv r.1 r.2.2 none).2⟩
    | false => exact ⟨rfl, fun j => rfl⟩
  | vnodeV node =>
    cases node with
    | mk tag body w =>
      have hred : afterChain render save true r
          = (let cres := body.foldl (childStep render true) (r.2.2, Except.ok [])
             match cres.2 with
             | .error e => (cres.1, .error e)
             | .ok newBody =>
               let node2 := RVNode.mk tag newBody r.1.getLast?
               ((if save then saveAll cres.1 r.1 (some node2) else cres.1),
                 .ok (some node2))) := by
        unfold afterChain
        rw [hn]
      rw [hred]
      have hfold := childFold_inv (childStep render true) hstep body (r.2.2, Except.ok [])
      cases hc : (body.foldl (childStep render true) (r.2.2, Except.ok [])).2 with
      | error e =>
        simp only [hc]
        exact ⟨hfold.1, hfold.2⟩
      | ok newBody =>
        simp only [hc]
        cases save with
        | true =>
          refine ⟨?_, ?_⟩
          · show (saveAll (body.foldl (childStep render true) (r.2.2, Except.ok [])).1
                r.1 (some (RVNode.mk tag newBody r.1.getLast?))).dispatched
                = r.2.2.dispatched
            rw [(saveAll_inv _ _ _).1, hfold.1]
          · intro j
            show (getView (saveAll (body.foldl (childStep render true)
                  (r.2.2, Except.ok [])).1 r.1
                  (some (RVNode.mk tag newBody r.1.getLast?))) j).setNoop
                = (getView r.2.2 j).setNoop
            rw [(saveAll_inv _ _ _).2 j, hfold.2 j]
        | false => exact ⟨hfold.1, hfold.2⟩
  | viewV id =>
    have hred : afterChain render save true r = (r.2.2, .error "Expected a VNode as the result of rendering the View (the rendering is recursive, so the error can be in the parent class or in the child class)") := by
      unfold afterChain
      rw [hn]
    rw [hred]
    exact ⟨rfl, fun j => rfl⟩
  | numV k =>
    have hred : afterChain render save true r = (r.2.2, .error "Expected a VNode as the result of rendering the View (the rendering is recursive, so the error can be in the parent class or in the child class)") := by
      unfold afterChain
      rw [hn]
    rw [hred]
    exact ⟨rfl, fun j => rfl⟩

/-- C8 (every render pass with ignoreStateChange set): no state.set dispatch
fires during the pass — the set slot of each view in every delegation chain
is the no-op while its body method runs — and afterwards every view's
state.set slot is restored to exactly what it was before the pass, whatever
the render result is. Hence rendering for serialization never triggers an
invalidation. -/
theorem claim8_ignore_state_change (fuel : Nat) :
    ∀ (v : RValue) (save : Bool) (st : RState),
      ((renderRV fuel v save true st).1.dispatched = st.dispatched)
      ∧ ∀ j, (getView (renderRV fuel v save true st).1 j).setNoop
          = (getView st j).setNoop := by
  induction fuel with
  | zero => intro v save st; exact ⟨rfl, fun j => rfl⟩
  | succ fuel ih =>
    intro v save st
    have hrender : ∀ c s t,
        (((fun c s i t => renderRV fuel c s i t) c s true t).1.dispatched
          = t.dispatched)
        ∧ ∀ j, (getView ((fun c s i t => renderRV fuel c s i t) c s true t).1 j).setNoop
            = (getView t j).setNoop := fun c s t => ih c s t
    cases v with
    | vnodeV n => exact ⟨rfl, fun j => rfl⟩
    | viewV id =>
      have hred : renderRV (fuel + 1) (RValue.viewV id) save true st
          = afterChain (fun c s i t => renderRV fuel c s i t) save true
              (chainLoop (fuel + 1) (RValue.viewV id) [] true st) := rfl
      rw [hred]
      have hac := afterChain_inv _ hrender save
        (chainLoop (fuel + 1) (RValue.viewV id) [] true st)
      have hcl := chainLoop_ignore_inv (fuel + 1) (RValue.viewV id) [] st
      exact ⟨by rw [hac.1, hcl.1], fun j => by rw [hac.2 j, hcl.2 j]⟩
    | nullV =>
      have hred : renderRV (fuel + 1) RValue.nullV save true st
          = afterChain (fun c s i t => renderRV fuel c s i t) save true
              (chainLoop (fuel + 1) RValue.nullV [] true st) := rfl
      rw [hred]
      have hac := afterChain_inv _ hrender save
        (chainLoop (fuel + 1) RValue.nullV [] true st)
      have hcl := chainLoop_ignore_inv (fuel + 1) RValue.nullV [] st
      exact ⟨by rw [hac.1, hcl.1], fun j => by rw [hac.2 j, hcl.2 j]⟩
    | numV k =>
      have hred : renderRV (fuel + 1) (RValue.numV k) save true st
          = afterChain (fun c s i t => renderRV fuel c s i t) save true
              (chainLoop (fuel + 1) (RValue.numV k) [] true st) := rfl
      rw [hred]
      have hac := afterChain_inv _ hrender save
        (chainLoop (fuel + 1) (RValue.numV k) [] true st)
      have hcl := chainLoop_ignore_inv (fuel + 1) (RValue.numV k) [] st
      exact ⟨by rw [hac.1, hcl.1], fun j => by rw [hac.2 j, hcl.2 j]⟩

/-! ## C10: applyViewProperties makes attributes and styles one map -/

theorem heapGet_heapSet (h : PHeap) (i : Nat) (m : List (String × String)) (j : Nat) :
    heapGet (heapSet h i m) j
      = if i = j then
          (if (h.maps.find? (fun p => p.1 == i)).isSome then m else heapGet h j)
        else heapGet h j := by
  unfold heapGet heapSet
  show (match (h.maps.map (fun p => if p.1 == i then (i, m) else p)).find?
        (fun p => p.1 == j) with
    | some p => p.2 | none => []) = _
  rw [find?_mapSet]
  by_cases hij : i = j
  · rw [if_pos hij, if_pos hij]
    subst hij
    cases hfind : h.maps.find? (fun p => p.1 == i) with
    | none => simp
    | some q => simp
  · rw [if_neg hij, if_neg hij]

theorem find?_isSome_heapSet (h : PHeap) (i : Nat) (m : List (String × String)) (j : Nat) :
    ((heapSet h i m).maps.find? (fun p => p.1 == j)).isSome
      = (h.maps.find? (fun p => p.1 == j)).isSome := by
  show ((h.maps.map (fun p => if p.1 == i then (i, m) else p)).find?
      (fun p => p.1 == j)).isSome = _
  rw [find?_mapSet]
  by_cases hij : i = j
  · rw [if_pos hij]
    subst hij
    cases h.maps.find? (fun p => p.1 == i) <;> simp
  · rw [if_neg hij]

/-- C10 (the assignment aliasing of applyViewProperties): after
applyViewProperties with a View source, the receiver's attributes and
styles references are one and the same map object; that map holds the
source's attributes merged over the source's styles merged over the
receiver's old styles — the receiver's previous attributes map contributes
nothing (it is left behind unchanged and unreferenced), so its entries are
dropped unless they also appear through the styles chain, and every style
key of the view is an attribute key and vice versa. -/
theorem claim10_attributes_alias_styles (this source : PView) (h : PHeap)
    (hpres : (h.maps.find? (fun p => p.1 == this.stylesRef)).isSome = true)
    (hne : ¬ this.attrsRef = this.stylesRef)
    (hsrc : ¬ source.attrsRef = this.stylesRef) :
    ((applyViewProperties this source h).1.attrsRef
        = (applyViewProperties this source h).1.stylesRef)
    ∧ (applyViewProperties this source h).1.stylesRef = this.stylesRef
    ∧ heapGet (applyViewProperties this source h).2
          (applyViewProperties this source h).1.attrsRef
        = heapGet (applyViewProperties this source h).2
          (applyViewProperties this source h).1.stylesRef
    ∧ heapGet (applyViewProperties this source h).2 this.stylesRef
        = objAssign (objAssign (heapGet h this.stylesRef) (heapGet h source.stylesRef))
            (heapGet h source.attrsRef)
    ∧ heapGet (applyViewProperties this source h).2 this.attrsRef
        = heapGet h this.attrsRef := by
  have hrefs : (applyViewProperties this source h).1.stylesRef = this.stylesRef
      ∧ (applyViewProperties this source h).1.attrsRef = this.stylesRef := by
    unfold applyViewProperties
    cases keyTruthy source.key <;> exact ⟨rfl, rfl⟩
  have hheap : (applyViewProperties this source h).2
      = heapSet (heapSet h this.stylesRef
          (objAssign (heapGet h this.stylesRef) (heapGet h source.stylesRef)))
        this.stylesRef
        (objAssign
          (heapGet (heapSet h this.stylesRef
            (objAssign (heapGet h this.stylesRef) (heapGet h source.stylesRef)))
            this.stylesRef)
          (heapGet (heapSet h this.stylesRef
            (objAssign (heapGet h this.stylesRef) (heapGet h source.stylesRef)))
            source.attrsRef)) := by
    unfold applyViewProperties
    cases keyTruthy source.key <;> rfl
  have hget1 : heapGet (heapSet h this.stylesRef
      (objAssign (heapGet h this.stylesRef) (heapGet h source.stylesRef)))
      this.stylesRef
      = objAssign (heapGet h this.stylesRef) (heapGet h source.stylesRef) := by
    rw [heapGet_heapSet, if_pos rfl, if_pos hpres]
  have hget2 : heapGet (heapSet h this.stylesRef
      (objAssign (heapGet h this.stylesRef) (heapGet h source.stylesRef)))
      source.attrsRef
      = heapGet h source.attrsRef := by
    rw [heapGet_heapSet, if_neg (fun hc => hsrc hc.symm)]
  have hpres2 : ((heapSet h this.stylesRef
      (objAssign (heapGet h this.stylesRef) (heapGet h source.stylesRef))).maps.find?
      (fun p => p.1 == this.stylesRef)).isSome = true := by
    rw [find?_isSome_heapSet, hpres]
  refine ⟨?_, hrefs.1, ?_, ?_, ?_⟩
  · rw [hrefs.1, hrefs.2]
  · rw [hrefs.1, hrefs.2]
  · rw [hheap, heapGet_heapSet, if_pos rfl, if_pos hpres2, hget1, hget2]
  · rw [hheap, heapGet_heapSet, if_neg (fun hc => hne hc.symm), heapGet_heapSet,
      if_neg (fun hc => hne hc.symm)]

def thisW : PView := { stylesRef := 0, attrsRef := 1, events := [], key := none }
def srcW : PView := { stylesRef := 2, attrsRef := 3, events := [], key := some 9 }
def heapW : PHeap :=
  { maps := [(0, [("color", "red")]), (1, [("id", "x")]),
             (2, [("width", "5px")]), (3, [("title", "t")])] }

/-- Witness for C10 at a concrete heap: the receiver's attributes reference
now equals its styles reference. -/
theorem claim10_witness :
    (applyViewProperties thisW srcW heapW).1.attrsRef
      = (applyViewProperties thisW srcW heapW).1.stylesRef :=
  (claim10_attributes_alias_styles thisW srcW heapW (by decide) (by decide)
    (by decide)).1

/-! ## C3: identical-tree reconciliation performs no style/attribute calls -/

/-- No duplicate strings in a list. -/
def nodupStr : List String → Bool
  | [] => true
  | x :: xs => (!xs.contains x) && nodupStr xs

/-- Keys of a style/attribute map are duplicate free (JavaScript object
keys always are). -/
def nodupKeys (l : List (String × SVal)) : Bool := nodupStr (l.map Prod.fst)

/-- Well formedness of a virtual tree down to the given depth: every node's
style and attribute maps have duplicate-free keys. -/
def wfKeysAux : Nat → VNode → Bool
  | 0, _ => true
  | fuel + 1, v =>
    nodupKeys v.styles && nodupKeys v.attributes && v.body.all (wfKeysAux fuel)

/-- The style/attribute mutation calls of a trace. -/
def isDiffCall : DomCall → Bool
  | .setStyle _ _ _ => true
  | .setAttribute _ _ _ => true
  | .removeAttribute _ _ => true
  | _ => false

def diffCalls (tr : List DomCall) : List DomCall := tr.filter isDiffCall

theorem diffCalls_append_nondiff (tr : List DomCall) (c : DomCall)
    (h : isDiffCall c = false) : diffCalls (tr ++ [c]) = diffCalls tr := by
  unfold diffCalls
  rw [List.filter_append]
  simp [List.filter, h]

theorem alistLookup_cons {α : Type} (q : String × α) (rest : List (String × α))
    (k : String) :
    alistLookup (q :: rest) k = if q.1 = k then some q.2 else alistLookup rest k := by
  unfold alistLookup
  by_cases hq : q.1 = k
  · rw [@List.find?_cons_of_pos _ (fun r => r.1 == k) q rest (beq_iff_eq.mpr hq),
      if_pos hq]
  · rw [@List.find?_cons_of_neg _ (fun r => r.1 == k) q rest (by simpa using hq),
      if_neg hq]

theorem alistLookup_isSome_of_mem {α : Type} (l : List (String × α))
    (p : String × α) (hp : p ∈ l) : (alistLookup l p.1).isSome = true := by
  induction l with
  | nil => cases hp
  | cons q rest ih =>
    rw [alistLookup_cons]
    by_cases hq : q.1 = p.1
    · rw [if_pos hq]; rfl
    · rw [if_neg hq]
      cases hp with
      | head => exact absurd rfl hq
      | tail _ hmem => exact ih hmem

theorem alistLookup_of_mem_nodup {l : List (String × SVal)}
    (hn : nodupKeys l = true) {p : String × SVal} (hp : p ∈ l) :
    alistLookup l p.1 = some p.2 := by
  induction l with
  | nil => cases hp
  | cons q rest ih =>
    have hn2 : (!(rest.map Prod.fst).contains q.1) = true
        ∧ nodupStr (rest.map Prod.fst) = true :=
      Bool.and_eq_true_iff.mp (by simpa [nodupKeys, nodupStr] using hn)
    rw [alistLookup_cons]
    cases hp with
    | head => rw [if_pos rfl]
    | tail _ hmem =>
      by_cases hq : q.1 = p.1
      · exfalso
        have hmm : p.1 ∈ rest.map Prod.fst := List.mem_map_of_mem Prod.fst hmem
        rw [← hq] at hmm
        have hcontains : (rest.map Prod.fst).contains q.1 = true :=
          List.elem_eq_true_of_mem hmm
        rw [hcontains] at hn2
        exact absurd hn2.1 (by simp)
      · rw [if_neg hq]
        exact ih hn2.2 hmem

theorem zip_self {α : Type} (l : List α) : l.zip l = l.map (fun c => (c, c)) := by
  induction l with
  | nil => rfl
  | cons x xs ih => rw [List.zip_cons_cons, List.map_cons, ih]

/-- The style loops do nothing when previous and next carry the same
duplicate-free style map. -/
theorem styleLoops_self (t : VNode) (d : Dom) (hn : nodupKeys t.styles = true) :
    styleLoops t t d = d := by
  unfold styleLoops
  have h1 : ∀ p ∈ t.styles, ∀ d2 : Dom, clearStep t.styles t.dom d2 p = d2 := by
    intro p hp d2
    unfold clearStep
    rw [if_neg (by rw [Option.isNone_iff_eq_none]
                   intro hc
                   have := alistLookup_isSome_of_mem t.styles p hp
                   rw [hc] at this
                   exact absurd this (by simp))]
  have h2 : ∀ p ∈ t.styles, ∀ d2 : Dom, writeStep t.styles t.dom d2 p = d2 := by
    intro p hp d2
    unfold writeStep
    rw [alistLookup_of_mem_nodup hn hp]
    simp
  rw [foldl_id_of_mem _ t.styles h1 d, foldl_id_of_mem _ t.styles h2 d]

/-- The attribute loops do nothing when previous and next carry the same
duplicate-free attribute map. -/
theorem attrLoops_self (t : VNode) (d : Dom) (hn : nodupKeys t.attributes = true) :
    attrLoops t t d = d := by
  unfold attrLoops
  have h1 : ∀ p ∈ t.attributes, ∀ d2 : Dom,
      attrClearStep t.attributes t.dom d2 p = d2 := by
    intro p hp d2
    unfold attrClearStep
    rw [if_neg (by rw [Option.isNone_iff_eq_none]
                   intro hc
                   have := alistLookup_isSome_of_mem t.attributes p hp
                   rw [hc] at this
                   exact absurd this (by simp))]
  have h2 : ∀ p ∈ t.attributes, ∀ d2 : Dom,
      attrWriteStep t.attributes t.dom d2 p = d2 := by
    intro p hp d2
    unfold attrWriteStep
    rw [alistLookup_of_mem_nodup hn hp]
    simp
  rw [foldl_id_of_mem _ t.attributes h1 d, foldl_id_of_mem _ t.attributes h2 d]

theorem trace_domRemoveEventListener (d : Dom) (node : Option Nat) (ev : String)
    (h : Option Nat) :
    (domRemoveEventListener d node ev h).trace
      = match node with
        | none => d.trace
        | some i => d.trace ++ [DomCall.removeEventListener i ev h] := by
  unfold domRemoveEventListener
  cases node with
  | none => rfl
  | some i =>
    simp only []
    cases h with
    | none => rfl
    | some hf =>
      simp only []
      cases lookupNode (pushTrace d (DomCall.removeEventListener i ev (some hf))) i with
      | none => rfl
      | some n => rw [trace_setNode]; rfl

theorem trace_domAddEventListener (d : Dom) (node : Option Nat) (ev : String)
    (hf : Nat) :
    (domAddEventListener d node ev hf).trace
      = match node with
        | none => d.trace
        | some i => d.trace ++ [DomCall.addEventListener i ev hf] := by
  unfold domAddEventListener
  cases node with
  | none => rfl
  | some i =>
    simp only []
    cases lookupNode (pushTrace d (DomCall.addEventListener i ev hf)) i with
    | none => rfl
    | some n =>
      simp only []
      by_cases hc : n.listeners.contains (ev, hf) = true
      · rw [if_pos hc]; rfl
      · rw [if_neg hc, trace_setNode]; rfl

theorem diffCalls_domRemoveEventListener (d : Dom) (node : Option Nat)
    (ev : String) (h : Option Nat) :
    diffCalls (domRemoveEventListener d node ev h).trace = diffCalls d.trace := by
  rw [trace_domRemoveEventListener]
  cases node with
  | none => rfl
  | some i => exact diffCalls_append_nondiff d.trace (DomCall.removeEventListener i ev h) rfl

theorem diffCalls_domAddEventListener (d : Dom) (node : Option Nat)
    (ev : String) (hf : Nat) :
    diffCalls (domAddEventListener d node ev hf).trace = diffCalls d.trace := by
  rw [trace_domAddEventListener]
  cases node with
  | none => rfl
  | some i => exact diffCalls_append_nondiff d.trace (DomCall.addEventListener i ev hf) rfl

/-- The event loops add only event-listener calls to the trace, never a
style or attribute call, for ANY pair of nodes. -/
theorem diffCalls_eventLoops (last next : VNode) (d : Dom) :
    diffCalls (eventLoops last next d).trace = diffCalls d.trace := by
  have h1 : ∀ (p : String × List Nat), p ∈ last.events → ∀ d2 : Dom,
      diffCalls (removeLoopStep next.events last.dom d2 p).trace
        = diffCalls d2.trace := by
    intro p _ d2
    exact foldl_proj_inv _ (fun d => diffCalls d.trace) _
      (fun j _ b => diffCalls_domRemoveEventListener b last.dom p.1 (p.2.get? j)) d2
  have h2 : ∀ (p : String × List Nat), p ∈ next.events → ∀ d2 : Dom,
      diffCalls (addLoopStep last.dom d2 p).trace = diffCalls d2.trace := by
    intro p _ d2
    exact foldl_proj_inv _ (fun d => diffCalls d.trace) _
      (fun h _ b => diffCalls_domAddEventListener b last.dom p.1 h) d2
  unfold eventLoops
  exact (foldl_proj_inv (addLoopStep last.dom)
      (fun d => diffCalls d.trace) next.events h2 _).trans
    (foldl_proj_inv (removeLoopStep next.events last.dom)
      (fun d => diffCalls d.trace) last.events h1 d)

theorem view_withBodyDom (v : VNode) (b : List VNode) (x : Option Nat) :
    (v.withBodyDom b x).view = v.view := by
  cases v; rfl

/-- Reconciling any well formed tree against itself (at any fuel) adds no
style or attribute call to the trace. -/
theorem updAux_self_no_diff : ∀ (fuel : Nat) (t : VNode) (d : Dom),
    wfKeysAux fuel t = true →
    diffCalls ((updAux fuel t t d).2.trace) = diffCalls d.trace := by
  intro fuel
  induction fuel with
  | zero => intro t d _; rfl
  | succ fuel ih =>
    intro t d hwf
    have hwf3 : (nodupKeys t.styles = true ∧ nodupKeys t.attributes = true)
        ∧ ∀ x ∈ t.body, wfKeysAux fuel x = true := by
      simpa [wfKeysAux] using hwf
    have hwf12 := hwf3.1
    have hwfb := hwf3.2
    rw [updAux]
    by_cases hirr : irreconcilable t t = true
    · rw [if_pos hirr]
      simp only []
      rw [trace_domReplaceWith, trace_toHTMLNode]
      exact diffCalls_append_nondiff d.trace _ rfl
    · rw [if_neg hirr]
      simp only []
      rw [styleLoops_self t d hwf12.1, attrLoops_self t _ hwf12.2]
      rw [view_withBodyDom]
      rw [show (t.body.length != t.body.length) = false from bne_self_eq_false _]
      simp only [Bool.false_eq_true, if_false]
      rw [zip_self]
      have hfold := foldl_proj_inv
        (fun (acc : List VNode × Dom) p =>
          ((acc.1 ++ [(updAux fuel p.1 p.2 acc.2).1], (updAux fuel p.1 p.2 acc.2).2)))
        (fun acc => diffCalls acc.2.trace)
        (t.body.map (fun c => (c, c)))
        (by
          intro pr hpr acc
          obtain ⟨c, hc, rfl⟩ := List.mem_map.mp hpr
          exact ih c acc.2 (hwfb c hc))
        ([], eventLoops t t d)
      cases hv : t.view with
      | some v =>
        simp only []
        rw [trace_pushTrace]
        rw [diffCalls_append_nondiff _ (DomCall.handleInvalidation v) rfl]
        exact hfold.trans (diffCalls_eventLoops t t d)
      | none =>
        simp only []
        exact hfold.trans (diffCalls_eventLoops t t d)


/-- C3 as amended: reconciling a tree against an identical copy of itself
performs no style writes and no attribute set/remove calls on any live
node (for every tree whose per-node style/attribute keys are duplicate
free, as JavaScript object keys are), but event handlers are not skipped:
the single-node tree with one click handler incurs a detach call and an
attach call on its live node. -/
theorem claim3_amended_idempotent :
    (∀ (t : VNode) (d : Dom), wfKeysAux (vsize t) t = true →
      diffCalls ((updateVNodeDOM t t d).2.trace) = diffCalls d.trace)
    ∧ (updateVNodeDOM tEv tEv dEv).2.trace
        = [DomCall.removeEventListener 0 "click" (some 5),
           DomCall.addEventListener 0 "click" 5] := by
  constructor
  · intro t d hwf
    exact updAux_self_no_diff (vsize t) t d hwf
  · decide

/-- Witness for C3 as amended, at the concrete one-handler tree. -/
theorem claim3_amended_witness :
    diffCalls ((updateVNodeDOM tEv tEv dEv).2.trace) = diffCalls dEv.trace :=
  claim3_amended_idempotent.1 tEv dEv (by decide)

/-! ## C5: the style reconciliation characterized -/

/-- dom.style[k] = val as a pure map operation: the empty string removes. -/
def styleWrite (m : List (String × String)) (k val : String) :
    List (String × String) :=
  if val == "" then alistRemove m k else alistSet m k val

/-- Pure form of one iteration of the clearing style loop. -/
def styleStep1 (S2 : List (String × SVal)) (m : List (String × String))
    (p : String × SVal) : List (String × String) :=
  if (alistLookup S2 p.1).isNone then styleWrite m p.1 "" else m

/-- Pure form of one iteration of the writing style loop. -/
def styleStep2 (S1 : List (String × SVal)) (m : List (String × String))
    (p : String × SVal) : List (String × String) :=
  match alistLookup S1 p.1 with
  | some v => if v.str == p.2.str then m else styleWrite m p.1 p.2.str
  | none => styleWrite m p.1 p.2.str

/-- The style map the claim expects on the live node after reconciliation:
next's values by string form, an empty string meaning absent. -/
def styleSpec (S2 : List (String × SVal)) (key : String) : Option String :=
  match alistLookup S2 key with
  | some v => if v.str == "" then none else some v.str
  | none => none

theorem alistLookup_alistRemove {α : Type} (m : List (String × α)) (k key : String) :
    alistLookup (alistRemove m k) key
      = if k = key then none else alistLookup m key := by
  induction m with
  | nil =>
    by_cases hk : k = key <;> simp [alistRemove, alistLookup, List.find?, hk]
  | cons q rest ih =>
    unfold alistRemove at ih ⊢
    by_cases hqk : q.1 = k
    · rw [List.filter_cons_of_neg (by simpa using hqk), ih]
      by_cases hk : k = key
      · rw [if_pos hk, if_pos hk]
      · rw [if_neg hk, if_neg hk, alistLookup_cons,
          if_neg (fun hc => hk (Eq.trans (Eq.symm hqk) hc))]
    · rw [List.filter_cons_of_pos (by simpa using hqk), alistLookup_cons,
        alistLookup_cons]
      by_cases hq : q.1 = key
      · have hk : ¬ k = key := fun hc => hqk (Eq.trans hq (Eq.symm hc))
        rw [if_pos hq, if_neg hk, if_pos hq]
      · rw [if_neg hq, if_neg hq, ih]

theorem alistLookup_mapSetStr {α : Type} (m : List (String × α)) (k : String)
    (v : α) (key : String) :
    alistLookup (m.map (fun p => if p.1 == k then (p.1, v) else p)) key
      = if k = key then (alistLookup m k).map (fun _ => v)
        else alistLookup m key := by
  induction m with
  | nil => by_cases hk : k = key <;> simp [alistLookup, List.find?, hk]
  | cons q rest ih =>
    rw [List.map_cons]
    by_cases hq : q.1 = k
    · rw [if_pos (beq_iff_eq.mpr hq)]
      by_cases hk : k = key
      · subst hk
        rw [alistLookup_cons, if_pos hq, if_pos rfl, alistLookup_cons, if_pos hq]
        rfl
      · rw [alistLookup_cons,
          if_neg (fun hc : q.1 = key => hk (Eq.trans (Eq.symm hq) hc)), ih,
          if_neg hk, if_neg hk, alistLookup_cons,
          if_neg (fun hc : q.1 = key => hk (Eq.trans (Eq.symm hq) hc))]
    · rw [if_neg (by simpa using hq), alistLookup_cons]
      by_cases hqkey : q.1 = key
      · have hk : ¬ k = key := fun hc => hq (Eq.trans hqkey (Eq.symm hc))
        rw [if_pos hqkey, if_neg hk, alistLookup_cons, if_pos hqkey]
      · rw [if_neg hqkey, ih]
        by_cases hk : k = key
        · rw [if_pos hk, if_pos hk, alistLookup_cons,
            if_neg (fun hc => hqkey (Eq.trans hc hk))]
        · rw [if_neg hk, if_neg hk, alistLookup_cons, if_neg hqkey]

theorem alistLookup_append_single {α : Type} (m : List (String × α)) (k : String)
    (v : α) (key : String) :
    alistLookup (m ++ [(k, v)]) key
      = match alistLookup m key with
        | some x => some x
        | none => if k = key then some v else none := by
  induction m with
  | nil =>
    by_cases hk : k = key
    · simp [alistLookup, alistLookup_cons, List.find?, hk]
    · have hb : (k == key) = false := by simpa using hk
      simp [alistLookup, List.find?, hb, hk]
  | cons q rest ih =>
    rw [List.cons_append, alistLookup_cons, alistLookup_cons]
    by_cases hq : q.1 = key
    · rw [if_pos hq, if_pos hq]
    · rw [if_neg hq, if_neg hq, ih]


theorem alistLookup_isSome_iff {α : Type} (l : List (String × α)) (k : String) :
    (alistLookup l k).isSome = (l.find? (fun p => p.1 == k)).isSome := by
  unfold alistLookup
  cases l.find? (fun p => p.1 == k) <;> rfl

theorem alistLookup_alistSet {α : Type} (m : List (String × α)) (k : String)
    (v : α) (key : String) :
    alistLookup (alistSet m k v) key
      = if k = key then some v else alistLookup m key := by
  unfold alistSet
  by_cases hpres : (m.find? (fun p => p.1 == k)).isSome
  · rw [if_pos hpres, alistLookup_mapSetStr]
    by_cases hk : k = key
    · rw [if_pos hk, if_pos hk]
      subst hk
      have hs : (alistLookup m k).isSome = true := by
        rw [alistLookup_isSome_iff]
        exact hpres
      cases h : alistLookup m k with
      | none => rw [h] at hs; exact absurd hs (by simp)
      | some x => rfl
    · rw [if_neg hk, if_neg hk]
  · rw [if_neg hpres, alistLookup_append_single]
    by_cases hk : k = key
    · subst hk
      have hn : alistLookup m k = none := by
        apply Option.not_isSome_iff_eq_none.mp
        rw [alistLookup_isSome_iff]
        exact hpres
      rw [hn]
    · cases h : alistLookup m key with
      | some x => simp [hk]
      | none => simp [hk]

theorem alistLookup_eq_none_of_not_mem {α : Type} (l : List (String × α))
    (k : String) (h : ¬ k ∈ l.map Prod.fst) : alistLookup l k = none := by
  induction l with
  | nil => rfl
  | cons q rest ih =>
    rw [List.map_cons] at h
    rw [alistLookup_cons,
      if_neg (fun hc => h (by rw [← hc]; exact List.mem_cons_self q.1 _))]
    exact ih (fun hm => h (List.mem_cons_of_mem q.1 hm))

theorem alistLookup_some_mem {α : Type} (l : List (String × α)) (k : String)
    (v : α) (h : alistLookup l k = some v) : (k, v) ∈ l := by
  induction l with
  | nil => cases h
  | cons q rest ih =>
    rw [alistLookup_cons] at h
    by_cases hq : q.1 = k
    · rw [if_pos hq] at h
      have hv : q.2 = v := Option.some.inj h
      have hqv : (k, v) = q := by rw [← hq, ← hv]
      rw [hqv]
      exact List.mem_cons_self q rest
    · rw [if_neg hq] at h
      exact List.mem_cons_of_mem q (ih h)

theorem alistLookup_stringAList (S : List (String × SVal))
    (hn : nodupKeys S = true) (key : String) :
    alistLookup (stringAList S) key
      = match alistLookup S key with
        | some v => if v.str == "" then none else some v.str
        | none => none := by
  induction S with
  | nil => rfl
  | cons q rest ih =>
    have hn2 : (!(rest.map Prod.fst).contains q.1) = true
        ∧ nodupStr (rest.map Prod.fst) = true :=
      Bool.and_eq_true_iff.mp (by simpa [nodupKeys, nodupStr] using hn)
    unfold stringAList at ih ⊢
    rw [List.map_cons]
    by_cases hne : (((q.1, q.2.str) : String × String).2 != "") = true
    · rw [@List.filter_cons_of_pos _ (fun p => p.2 != "") (q.1, q.2.str) _ hne,
        alistLookup_cons, alistLookup_cons]
      by_cases hq : q.1 = key
      · rw [if_pos hq, if_pos hq]
        have hs : (q.2.str == "") = false := by simpa using hne
        simp [hs]
      · rw [if_neg hq, if_neg hq, ih hn2.2]
    · rw [@List.filter_cons_of_neg _ (fun p => p.2 != "") (q.1, q.2.str) _ hne,
        alistLookup_cons]
      have hempty : q.2.str = "" := by simpa using hne
      by_cases hq : q.1 = key
      · rw [if_pos hq]
        have hnone : alistLookup rest key = none := by
          apply alistLookup_eq_none_of_not_mem
          rw [← hq]
          exact (by simpa using hn2.1 : ¬ q.1 ∈ rest.map Prod.fst)
        rw [ih hn2.2, hnone]
        simp [hempty]
      · rw [if_neg hq, ih hn2.2]

theorem alistLookup_styleWrite_self (m : List (String × String)) (k val : String) :
    alistLookup (styleWrite m k val) k
      = if (val == "") = true then none else some val := by
  unfold styleWrite
  by_cases hv : (val == "") = true
  · rw [if_pos hv, if_pos hv, alistLookup_alistRemove, if_pos rfl]
  · rw [if_neg hv, if_neg hv, alistLookup_alistSet, if_pos rfl]

theorem alistLookup_styleWrite_other (m : List (String × String)) (k val key : String)
    (h : ¬ k = key) :
    alistLookup (styleWrite m k val) key = alistLookup m key := by
  unfold styleWrite
  by_cases hv : (val == "") = true
  · rw [if_pos hv, alistLookup_alistRemove, if_neg h]
  · rw [if_neg hv, alistLookup_alistSet, if_neg h]

theorem styleStep1_lookup_other (S2 : List (String × SVal))
    (m : List (String × String)) (p : String × SVal) (key : String)
    (h : ¬ p.1 = key) :
    alistLookup (styleStep1 S2 m p) key = alistLookup m key := by
  unfold styleStep1
  by_cases hs : (alistLookup S2 p.1).isNone = true
  · rw [if_pos hs]
    exact alistLookup_styleWrite_other m p.1 "" key h
  · rw [if_neg hs]

theorem styleStep2_lookup_other (S1 : List (String × SVal))
    (m : List (String × String)) (p : String × SVal) (key : String)
    (h : ¬ p.1 = key) :
    alistLookup (styleStep2 S1 m p) key = alistLookup m key := by
  unfold styleStep2
  cases alistLookup S1 p.1 with
  | none => exact alistLookup_styleWrite_other m p.1 p.2.str key h
  | some v1 =>
    show alistLookup (if (v1.str == p.2.str) = true then m
        else styleWrite m p.1 p.2.str) key = _
    by_cases he : (v1.str == p.2.str) = true
    · rw [if_pos he]
    · rw [if_neg he]
      exact alistLookup_styleWrite_other m p.1 p.2.str key h

theorem fold1_lookup (S2 : List (String × SVal)) :
    ∀ (L : List (String × SVal)) (m : List (String × String)) (key : String),
      alistLookup (L.foldl (styleStep1 S2) m) key
        = if ((alistLookup L key).isSome = true ∧ alistLookup S2 key = none)
          then none else alistLookup m key := by
  intro L
  induction L with
  | nil =>
    intro m key
    rw [List.foldl_nil, if_neg]
    rintro ⟨h1, _⟩
    exact absurd h1 (by simp [alistLookup, List.find?])
  | cons p L ih =>
    intro m key
    rw [List.foldl_cons, ih]
    by_cases hpk : p.1 = key
    · by_cases hS2 : alistLookup S2 key = none
      · have hS2p : (alistLookup S2 p.1).isNone = true := by
          rw [hpk, hS2]
          rfl
        have hstep : styleStep1 S2 m p = styleWrite m p.1 "" := by
          unfold styleStep1
          rw [if_pos hS2p]
        have hself : alistLookup (styleStep1 S2 m p) key = none := by
          rw [hstep, ← hpk, alistLookup_styleWrite_self]
          rfl
        have hCpL : (alistLookup (p :: L) key).isSome = true
            ∧ alistLookup S2 key = none := by
          refine ⟨?_, hS2⟩
          rw [alistLookup_cons, if_pos hpk]
          rfl
        rw [if_pos hCpL]
        by_cases hcl : ((alistLookup L key).isSome = true ∧ alistLookup S2 key = none)
        · rw [if_pos hcl]
        · rw [if_neg hcl, hself]
      · have hstep : styleStep1 S2 m p = m := by
          unfold styleStep1
          rw [if_neg (by
            rw [hpk]
            intro hc
            exact hS2 (Option.isNone_iff_eq_none.mp hc))]
        have hnc1 : ¬ ((alistLookup L key).isSome = true
            ∧ alistLookup S2 key = none) := fun hc => hS2 hc.2
        have hnc2 : ¬ ((alistLookup (p :: L) key).isSome = true
            ∧ alistLookup S2 key = none) := fun hc => hS2 hc.2
        rw [if_neg hnc1, if_neg hnc2, hstep]
    · rw [show alistLookup (p :: L) key = alistLookup L key by
        rw [alistLookup_cons, if_neg hpk]]
      by_cases hcl : ((alistLookup L key).isSome = true ∧ alistLookup S2 key = none)
      · rw [if_pos hcl, if_pos hcl]
      · rw [if_neg hcl, if_neg hcl]
        exact styleStep1_lookup_other S2 m p key hpk

theorem fold2_lookup (S1 : List (String × SVal)) :
    ∀ (L : List (String × SVal)) (m : List (String × String)) (key : String),
      nodupKeys L = true →
      alistLookup (L.foldl (styleStep2 S1) m) key
        = match alistLookup L key with
          | some v =>
            match alistLookup S1 key with
            | some v1 => if (v1.str == v.str) = true then alistLookup m key
                else (if (v.str == "") = true then none else some v.str)
            | none => if (v.str == "") = true then none else some v.str
          | none => alistLookup m key := by
  intro L
  induction L with
  | nil => intro m key _; rfl
  | cons p L ih =>
    intro m key hn
    have hn2 : (!(L.map Prod.fst).contains p.1) = true
        ∧ nodupStr (L.map Prod.fst) = true :=
      Bool.and_eq_true_iff.mp (by simpa [nodupKeys, nodupStr] using hn)
    rw [List.foldl_cons, ih _ _ hn2.2]
    by_cases hpk : p.1 = key
    · have hLnone : alistLookup L key = none := by
        apply alistLookup_eq_none_of_not_mem
        rw [← hpk]
        exact (by simpa using hn2.1 : ¬ p.1 ∈ L.map Prod.fst)
      rw [hLnone, alistLookup_cons, if_pos hpk]
      show alistLookup (styleStep2 S1 m p) key
          = (match alistLookup S1 key with
             | some v1 => if (v1.str == p.2.str) = true then alistLookup m key
                 else (if (p.2.str == "") = true then none else some p.2.str)
             | none => if (p.2.str == "") = true then none else some p.2.str)
      unfold styleStep2
      rw [hpk]
      cases hS1 : alistLookup S1 key with
      | none =>
        show alistLookup (styleWrite m key p.2.str) key = _
        rw [alistLookup_styleWrite_self]
      | some v1 =>
        show alistLookup (if (v1.str == p.2.str) = true then m
            else styleWrite m key p.2.str) key
          = (if (v1.str == p.2.str) = true then alistLookup m key
             else (if (p.2.str == "") = true then none else some p.2.str))
        by_cases he : (v1.str == p.2.str) = true
        · rw [if_pos he, if_pos he]
        · rw [if_neg he, if_neg he, alistLookup_styleWrite_self]
    · rw [show alistLookup (p :: L) key = alistLookup L key by
        rw [alistLookup_cons, if_neg hpk]]
      rw [styleStep2_lookup_other S1 m p key hpk]

theorem trace_domSetStyle (d : Dom) (node : Option Nat) (k val : String) :
    (domSetStyle d node k val).trace
      = match node with
        | none => d.trace
        | some i => d.trace ++ [DomCall.setStyle i k val] := by
  unfold domSetStyle
  cases node with
  | none => rfl
  | some i =>
    simp only []
    cases lookupNode (pushTrace d (DomCall.setStyle i k val)) i with
    | none => rfl
    | some n => rw [trace_setNode]; rfl

theorem trace_domSetAttribute (d : Dom) (node : Option Nat) (k val : String) :
    (domSetAttribute d node k val).trace
      = match node with
        | none => d.trace
        | some i => d.trace ++ [DomCall.setAttribute i k val] := by
  unfold domSetAttribute
  cases node with
  | none => rfl
  | some i =>
    simp only []
    cases lookupNode (pushTrace d (DomCall.setAttribute i k val)) i with
    | none => rfl
    | some n => rw [trace_setNode]; rfl

theorem trace_domRemoveAttribute (d : Dom) (node : Option Nat) (k : String) :
    (domRemoveAttribute d node k).trace
      = match node with
        | none => d.trace
        | some i => d.trace ++ [DomCall.removeAttribute i k] := by
  unfold domRemoveAttribute
  cases node with
  | none => rfl
  | some i =>
    simp only []
    cases lookupNode (pushTrace d (DomCall.removeAttribute i k)) i with
    | none => rfl
    | some n => rw [trace_setNode]; rfl

theorem lookupNode_domSetStyle_self (d : Dom) (n : Nat) (k val : String)
    (dn : DomNode) (h : lookupNode d n = some dn) :
    lookupNode (domSetStyle d (some n) k val) n
      = some { dn with style := styleWrite dn.style k val } := by
  unfold domSetStyle
  simp only []
  rw [show lookupNode (pushTrace d (DomCall.setStyle n k val)) n = some dn from h]
  show lookupNode (setNode (pushTrace d (DomCall.setStyle n k val)) n
      { dn with style := if (val == "") = true then alistRemove dn.style k
          else alistSet dn.style k val }) n = _
  rw [lookupNode_setNode, if_pos rfl]
  rfl

theorem fold1_bridge (S2 : List (String × SVal)) (n : Nat) :
    ∀ (L : List (String × SVal)) (d : Dom) (dn : DomNode),
      lookupNode d n = some dn →
      lookupNode (L.foldl (clearStep S2 (some n)) d) n
        = some { dn with style := L.foldl (styleStep1 S2) dn.style } := by
  intro L
  induction L with
  | nil => intro d dn h; exact h
  | cons p L ih =>
    intro d dn h
    rw [List.foldl_cons, List.foldl_cons]
    by_cases hS2 : (alistLookup S2 p.1).isNone = true
    · rw [show clearStep S2 (some n) d p = domSetStyle d (some n) p.1 "" from by
          unfold clearStep; rw [if_pos hS2],
        show styleStep1 S2 dn.style p = styleWrite dn.style p.1 "" from by
          unfold styleStep1; rw [if_pos hS2]]
      exact ih _ _ (lookupNode_domSetStyle_self d n p.1 "" dn h)
    · rw [show clearStep S2 (some n) d p = d from by
          unfold clearStep; rw [if_neg hS2],
        show styleStep1 S2 dn.style p = dn.style from by
          unfold styleStep1; rw [if_neg hS2]]
      exact ih d dn h

theorem fold2_bridge (S1 : List (String × SVal)) (n : Nat) :
    ∀ (L : List (String × SVal)) (d : Dom) (dn : DomNode),
      lookupNode d n = some dn →
      lookupNode (L.foldl (writeStep S1 (some n)) d) n
        = some { dn with style := L.foldl (styleStep2 S1) dn.style } := by
  intro L
  induction L with
  | nil => intro d dn h; exact h
  | cons p L ih =>
    intro d dn h
    rw [List.foldl_cons, List.foldl_cons]
    cases hS1 : alistLookup S1 p.1 with
    | none =>
      rw [show writeStep S1 (some n) d p = domSetStyle d (some n) p.1 p.2.str from by
          unfold writeStep; rw [hS1],
        show styleStep2 S1 dn.style p = styleWrite dn.style p.1 p.2.str from by
          unfold styleStep2; rw [hS1]]
      exact ih _ _ (lookupNode_domSetStyle_self d n p.1 p.2.str dn h)
    | some v =>
      by_cases he : (v.str == p.2.str) = true
      · rw [show writeStep S1 (some n) d p = d from by
            unfold writeStep
            rw [hS1]
            show (if (v.str == p.2.str) = true then d else _) = d
            rw [if_pos he],
          show styleStep2 S1 dn.style p = dn.style from by
            unfold styleStep2
            rw [hS1]
            show (if (v.str == p.2.str) = true then dn.style else _) = dn.style
            rw [if_pos he]]
        exact ih d dn h
      · rw [show writeStep S1 (some n) d p = domSetStyle d (some n) p.1 p.2.str from by
            unfold writeStep
            rw [hS1]
            show (if (v.str == p.2.str) = true then d else _) = _
            rw [if_neg he],
          show styleStep2 S1 dn.style p = styleWrite dn.style p.1 p.2.str from by
            unfold styleStep2
            rw [hS1]
            show (if (v.str == p.2.str) = true then dn.style else _) = _
            rw [if_neg he]]
        exact ih _ _ (lookupNode_domSetStyle_self d n p.1 p.2.str dn h)

/-- The style map of a live node, the projection preserved by every
non-style operation. -/
def styleOf (d : Dom) (j : Nat) : Option (List (String × String)) :=
  (lookupNode d j).map DomNode.style

theorem styleOf_domSetAttribute (d : Dom) (nd : Option Nat) (k val : String)
    (j : Nat) : styleOf (domSetAttribute d nd k val) j = styleOf d j := by
  unfold domSetAttribute
  cases nd with
  | none => rfl
  | some i =>
    simp only []
    cases hl : lookupNode (pushTrace d (DomCall.setAttribute i k val)) i with
    | none => rfl
    | some m =>
      show styleOf (setNode (pushTrace d (DomCall.setAttribute i k val)) i
        { m with attrs := alistSet m.attrs k val }) j = _
      unfold styleOf
      rw [lookupNode_setNode]
      by_cases hij : i = j
      · rw [if_pos hij, ← hij,
          show lookupNode d i = some m from hl]
        rfl
      · rw [if_neg hij]
        rfl

theorem styleOf_domRemoveAttribute (d : Dom) (nd : Option Nat) (k : String)
    (j : Nat) : styleOf (domRemoveAttribute d nd k) j = styleOf d j := by
  unfold domRemoveAttribute
  cases nd with
  | none => rfl
  | some i =>
    simp only []
    cases hl : lookupNode (pushTrace d (DomCall.removeAttribute i k)) i with
    | none => rfl
    | some m =>
      show styleOf (setNode (pushTrace d (DomCall.removeAttribute i k)) i
        { m with attrs := alistRemove m.attrs k }) j = _
      unfold styleOf
      rw [lookupNode_setNode]
      by_cases hij : i = j
      · rw [if_pos hij, ← hij,
          show lookupNode d i = some m from hl]
        rfl
      · rw [if_neg hij]
        rfl

theorem styleOf_domRemoveEventListener (d : Dom) (nd : Option Nat) (ev : String)
    (h : Option Nat) (j : Nat) :
    styleOf (domRemoveEventListener d nd ev h) j = styleOf d j := by
  unfold domRemoveEventListener
  cases nd with
  | none => rfl
  | some i =>
    simp only []
    cases h with
    | none => rfl
    | some hf =>
      simp only []
      cases hl : lookupNode (pushTrace d (DomCall.removeEventListener i ev (some hf))) i with
      | none => rfl
      | some m =>
        show styleOf (setNode (pushTrace d (DomCall.removeEventListener i ev (some hf))) i
          { m with listeners := m.listeners.filter (fun p => p != (ev, hf)) }) j = _
        unfold styleOf
        rw [lookupNode_setNode]
        by_cases hij : i = j
        · rw [if_pos hij, ← hij,
            show lookupNode d i = some m from hl]
          rfl
        · rw [if_neg hij]
          rfl

theorem styleOf_domAddEventListener (d : Dom) (nd : Option Nat) (ev : String)
    (hf : Nat) (j : Nat) :
    styleOf (domAddEventListener d nd ev hf) j = styleOf d j := by
  unfold domAddEventListener
  cases nd with
  | none => rfl
  | some i =>
    simp only []
    cases hl : lookupNode (pushTrace d (DomCall.addEventListener i ev hf)) i with
    | none => rfl
    | some m =>
      simp only []
      by_cases hc : m.listeners.contains (ev, hf) = true
      · rw [if_pos hc]
        rfl
      · rw [if_neg hc]
        show styleOf (setNode (pushTrace d (DomCall.addEventListener i ev hf)) i
          { m with listeners := m.listeners ++ [(ev, hf)] }) j = _
        unfold styleOf
        rw [lookupNode_setNode]
        by_cases hij : i = j
        · rw [if_pos hij, ← hij,
            show lookupNode d i = some m from hl]
          rfl
        · rw [if_neg hij]
          rfl

theorem styleOf_eventLoops (last next : VNode) (d : Dom) (j : Nat) :
    styleOf (eventLoops last next d) j = styleOf d j := by
  have h1 : ∀ (p : String × List Nat), p ∈ last.events → ∀ d2 : Dom,
      styleOf (removeLoopStep next.events last.dom d2 p) j = styleOf d2 j := by
    intro p _ d2
    exact foldl_proj_inv _ (fun d => styleOf d j) _
      (fun i _ b => styleOf_domRemoveEventListener b last.dom p.1 (p.2.get? i) j) d2
  have h2 : ∀ (p : String × List Nat), p ∈ next.events → ∀ d2 : Dom,
      styleOf (addLoopStep last.dom d2 p) j = styleOf d2 j := by
    intro p _ d2
    exact foldl_proj_inv _ (fun d => styleOf d j) _
      (fun h _ b => styleOf_domAddEventListener b last.dom p.1 h j) d2
  unfold eventLoops
  exact (foldl_proj_inv (addLoopStep last.dom) (fun d => styleOf d j)
      next.events h2 _).trans
    (foldl_proj_inv (removeLoopStep next.events last.dom) (fun d => styleOf d j)
      last.events h1 d)

theorem styleOf_attrLoops (last next : VNode) (d : Dom) (j : Nat) :
    styleOf (attrLoops last next d) j = styleOf d j := by
  have h1 : ∀ (p : String × SVal), p ∈ last.attributes → ∀ d2 : Dom,
      styleOf (attrClearStep next.attributes last.dom d2 p) j = styleOf d2 j := by
    intro p _ d2
    unfold attrClearStep
    by_cases hc : (alistLookup next.attributes p.1).isNone = true
    · rw [if_pos hc]
      exact styleOf_domRemoveAttribute d2 last.dom p.1 j
    · rw [if_neg hc]
  have h2 : ∀ (p : String × SVal), p ∈ next.attributes → ∀ d2 : Dom,
      styleOf (attrWriteStep last.attributes last.dom d2 p) j = styleOf d2 j := by
    intro p _ d2
    unfold attrWriteStep
    cases alistLookup last.attributes p.1 with
    | none => exact styleOf_domSetAttribute d2 last.dom p.1 p.2.str j
    | some v =>
      show styleOf (if (v.str == p.2.str) = true then d2
          else domSetAttribute d2 last.dom p.1 p.2.str) j = _
      by_cases he : (v.str == p.2.str) = true
      · rw [if_pos he]
      · rw [if_neg he]
        exact styleOf_domSetAttribute d2 last.dom p.1 p.2.str j
  unfold attrLoops
  exact (foldl_proj_inv (attrWriteStep last.attributes last.dom)
      (fun d => styleOf d j) next.attributes h2 _).trans
    (foldl_proj_inv (attrClearStep next.attributes last.dom)
      (fun d => styleOf d j) last.attributes h1 d)

def isSetStyle : DomCall → Bool
  | .setStyle _ _ _ => true
  | _ => false

/-- The setStyle entries of a trace. -/
def styleCalls (tr : List DomCall) : List DomCall := tr.filter isSetStyle

theorem styleCalls_append_nonstyle (tr : List DomCall) (c : DomCall)
    (h : isSetStyle c = false) : styleCalls (tr ++ [c]) = styleCalls tr := by
  unfold styleCalls
  rw [List.filter_append]
  simp [List.filter, h]

theorem styleCalls_domRemoveEventListener (d : Dom) (nd : Option Nat)
    (ev : String) (h : Option Nat) :
    styleCalls (domRemoveEventListener d nd ev h).trace = styleCalls d.trace := by
  rw [trace_domRemoveEventListener]
  cases nd with
  | none => rfl
  | some i =>
    exact styleCalls_append_nonstyle d.trace (DomCall.removeEventListener i ev h) rfl

theorem styleCalls_domAddEventListener (d : Dom) (nd : Option Nat)
    (ev : String) (hf : Nat) :
    styleCalls (domAddEventListener d nd ev hf).trace = styleCalls d.trace := by
  rw [trace_domAddEventListener]
  cases nd with
  | none => rfl
  | some i =>
    exact styleCalls_append_nonstyle d.trace (DomCall.addEventListener i ev hf) rfl

theorem styleCalls_domSetAttribute (d : Dom) (nd : Option Nat) (k val : String) :
    styleCalls (domSetAttribute d nd k val).trace = styleCalls d.trace := by
  rw [trace_domSetAttribute]
  cases nd with
  | none => rfl
  | some i =>
    exact styleCalls_append_nonstyle d.trace (DomCall.setAttribute i k val) rfl

theorem styleCalls_domRemoveAttribute (d : Dom) (nd : Option Nat) (k : String) :
    styleCalls (domRemoveAttribute d nd k).trace = styleCalls d.trace := by
  rw [trace_domRemoveAttribute]
  cases nd with
  | none => rfl
  | some i =>
    exact styleCalls_append_nonstyle d.trace (DomCall.removeAttribute i k) rfl

theorem styleCalls_eventLoops (last next : VNode) (d : Dom) :
    styleCalls (eventLoops last next d).trace = styleCalls d.trace := by
  have h1 : ∀ (p : String × List Nat), p ∈ last.events → ∀ d2 : Dom,
      styleCalls (removeLoopStep next.events last.dom d2 p).trace
        = styleCalls d2.trace := by
    intro p _ d2
    exact foldl_proj_inv _ (fun d => styleCalls d.trace) _
      (fun i _ b => styleCalls_domRemoveEventListener b last.dom p.1 (p.2.get? i)) d2
  have h2 : ∀ (p : String × List Nat), p ∈ next.events → ∀ d2 : Dom,
      styleCalls (addLoopStep last.dom d2 p).trace = styleCalls d2.trace := by
    intro p _ d2
    exact foldl_proj_inv _ (fun d => styleCalls d.trace) _
      (fun h _ b => styleCalls_domAddEventListener b last.dom p.1 h) d2
  unfold eventLoops
  exact (foldl_proj_inv (addLoopStep last.dom)
      (fun d => styleCalls d.trace) next.events h2 _).trans
    (foldl_proj_inv (removeLoopStep next.events last.dom)
      (fun d => styleCalls d.trace) last.events h1 d)

theorem styleCalls_attrLoops (last next : VNode) (d : Dom) :
    styleCalls (attrLoops last next d).trace = styleCalls d.trace := by
  have h1 : ∀ (p : String × SVal), p ∈ last.attributes → ∀ d2 : Dom,
      styleCalls (attrClearStep next.attributes last.dom d2 p).trace
        = styleCalls d2.trace := by
    intro p _ d2
    unfold attrClearStep
    by_cases hc : (alistLookup next.attributes p.1).isNone = true
    · rw [if_pos hc]
      exact styleCalls_domRemoveAttribute d2 last.dom p.1
    · rw [if_neg hc]
  have h2 : ∀ (p : String × SVal), p ∈ next.attributes → ∀ d2 : Dom,
      styleCalls (attrWriteStep last.attributes last.dom d2 p).trace
        = styleCalls d2.trace := by
    intro p _ d2
    unfold attrWriteStep
    cases alistLookup last.attributes p.1 with
    | none => exact styleCalls_domSetAttribute d2 last.dom p.1 p.2.str
    | some v =>
      show styleCalls (if (v.str == p.2.str) = true then d2
          else domSetAttribute d2 last.dom p.1 p.2.str).trace = _
      by_cases he : (v.str == p.2.str) = true
      · rw [if_pos he]
      · rw [if_neg he]
        exact styleCalls_domSetAttribute d2 last.dom p.1 p.2.str
  unfold attrLoops
  exact (foldl_proj_inv (attrWriteStep last.attributes last.dom)
      (fun d => styleCalls d.trace) next.attributes h2 _).trans
    (foldl_proj_inv (attrClearStep next.attributes last.dom)
      (fun d => styleCalls d.trace) last.attributes h1 d)

/-- The trace entries the clearing style loop appends. -/
theorem trace_fold1 (S2 : List (String × SVal)) (n : Nat) :
    ∀ (L : List (String × SVal)) (d : Dom),
      (L.foldl (clearStep S2 (some n)) d).trace
        = d.trace ++ (L.filter (fun p => (alistLookup S2 p.1).isNone)).map
            (fun p => DomCall.setStyle n p.1 "") := by
  intro L
  induction L with
  | nil => intro d; rw [List.foldl_nil, List.filter_nil, List.map_nil, List.append_nil]
  | cons p L ih =>
    intro d
    rw [List.foldl_cons]
    by_cases hS2 : (alistLookup S2 p.1).isNone = true
    · rw [show clearStep S2 (some n) d p = domSetStyle d (some n) p.1 "" from by
          unfold clearStep; rw [if_pos hS2],
        ih,
        @List.filter_cons_of_pos _ (fun p => (alistLookup S2 p.1).isNone) p _ hS2,
        List.map_cons,
        show (domSetStyle d (some n) p.1 "").trace
          = d.trace ++ [DomCall.setStyle n p.1 ""] from trace_domSetStyle d (some n) p.1 ""]
      rw [List.append_assoc]
      rfl
    · rw [show clearStep S2 (some n) d p = d from by
          unfold clearStep; rw [if_neg hS2],
        ih,
        @List.filter_cons_of_neg _ (fun p => (alistLookup S2 p.1).isNone) p _ hS2]

/-- The trace entry one iteration of the writing style loop appends, if
any. -/
def writeEntry (S1 : List (String × SVal)) (n : Nat) (p : String × SVal) :
    Option DomCall :=
  match alistLookup S1 p.1 with
  | some v => if v.str == p.2.str then none
      else some (DomCall.setStyle n p.1 p.2.str)
  | none => some (DomCall.setStyle n p.1 p.2.str)

/-- The trace entries the writing style loop appends. -/
theorem trace_fold2 (S1 : List (String × SVal)) (n : Nat) :
    ∀ (L : List (String × SVal)) (d : Dom),
      (L.foldl (writeStep S1 (some n)) d).trace
        = d.trace ++ L.filterMap (writeEntry S1 n) := by
  intro L
  induction L with
  | nil => intro d; rw [List.foldl_nil, List.filterMap_nil, List.append_nil]
  | cons p L ih =>
    intro d
    rw [List.foldl_cons, List.filterMap_cons]
    cases hS1 : alistLookup S1 p.1 with
    | none =>
      rw [show writeStep S1 (some n) d p = domSetStyle d (some n) p.1 p.2.str from by
          unfold writeStep; rw [hS1],
        ih,
        show (domSetStyle d (some n) p.1 p.2.str).trace
          = d.trace ++ [DomCall.setStyle n p.1 p.2.str] from
            trace_domSetStyle d (some n) p.1 p.2.str,
        show writeEntry S1 n p = some (DomCall.setStyle n p.1 p.2.str) from by
          unfold writeEntry; rw [hS1]]
      rw [List.append_assoc]
      rfl
    | some v =>
      by_cases he : (v.str == p.2.str) = true
      · rw [show writeStep S1 (some n) d p = d from by
            unfold writeStep
            rw [hS1]
            show (if (v.str == p.2.str) = true then d else _) = d
            rw [if_pos he],
          ih,
          show writeEntry S1 n p = none from by
            unfold writeEntry
            rw [hS1]
            show (if (v.str == p.2.str) = true then none else _) = none
            rw [if_pos he]]
      · rw [show writeStep S1 (some n) d p = domSetStyle d (some n) p.1 p.2.str from by
            unfold writeStep
            rw [hS1]
            show (if (v.str == p.2.str) = true then d else _) = _
            rw [if_neg he],
          ih,
          show (domSetStyle d (some n) p.1 p.2.str).trace
            = d.trace ++ [DomCall.setStyle n p.1 p.2.str] from
              trace_domSetStyle d (some n) p.1 p.2.str,
          show writeEntry S1 n p = some (DomCall.setStyle n p.1 p.2.str) from by
            unfold writeEntry
            rw [hS1]
            show (if (v.str == p.2.str) = true then none else _) = _
            rw [if_neg he]]
        rw [List.append_assoc]
        rfl

theorem styleOf_pushTrace (d : Dom) (c : DomCall) (j : Nat) :
    styleOf (pushTrace d c) j = styleOf d j := rfl

theorem mem_styleCalls (e : DomCall) (tr : List DomCall)
    (he : isSetStyle e = true) : e ∈ styleCalls tr ↔ e ∈ tr := by
  unfold styleCalls
  rw [List.mem_filter]
  exact ⟨fun h => h.1, fun h => ⟨h, he⟩⟩

/-- Pointwise value of the style map produced by the two style loops,
starting from the live style of the previous node. -/
theorem claim5_pure (S1 S2 : List (String × SVal))
    (hn1 : nodupKeys S1 = true) (hn2 : nodupKeys S2 = true) (key : String) :
    alistLookup (S2.foldl (styleStep2 S1) (S1.foldl (styleStep1 S2)
        (stringAList S1))) key
      = styleSpec S2 key := by
  rw [fold2_lookup S1 S2 _ key hn2, fold1_lookup S2 S1 _ key]
  unfold styleSpec
  cases hS2k : alistLookup S2 key with
  | some v2v =>
    cases hS1k : alistLookup S1 key with
    | some w1 =>
      show (if (w1.str == v2v.str) = true then
          (if ((some w1 : Option SVal).isSome = true
              ∧ (some v2v : Option SVal) = none)
            then none else alistLookup (stringAList S1) key)
          else (if (v2v.str == "") = true then none else some v2v.str))
        = (if (v2v.str == "") = true then none else some v2v.str)
      by_cases heq : (w1.str == v2v.str) = true
      · rw [if_pos heq,
          if_neg (fun hc => Option.noConfusion hc.2),
          alistLookup_stringAList S1 hn1 key, hS1k]
        have hw : w1.str = v2v.str := beq_iff_eq.mp heq
        show (if (w1.str == "") = true then none else some w1.str) = _
        rw [hw]
      · rw [if_neg heq]
    | none =>
      show (if (v2v.str == "") = true then none else some v2v.str) = _
      rfl
  | none =>
    cases hS1k : alistLookup S1 key with
    | some w1 =>
      show (if ((some w1 : Option SVal).isSome = true
          ∧ (none : Option SVal) = none)
          then none else alistLookup (stringAList S1) key) = none
      rw [if_pos ⟨rfl, rfl⟩]
    | none =>
      show (if ((none : Option SVal).isSome = true
          ∧ (none : Option SVal) = none)
          then none else alistLookup (stringAList S1) key) = none
      rw [if_neg (fun hc => Bool.noConfusion hc.1),
        alistLookup_stringAList S1 hn1 key, hS1k]

/-- A setStyle entry for a key present in both maps occurs among the style
loop trace entries exactly when the string values differ. -/
theorem claim5_mem (S1 S2 : List (String × SVal)) (n : Nat) (key : String)
    (w1 w2 : SVal)
    (hS1k : alistLookup S1 key = some w1) (hS2k : alistLookup S2 key = some w2) :
    (DomCall.setStyle n key w2.str
        ∈ (S1.filter (fun p => (alistLookup S2 p.1).isNone)).map
            (fun p => DomCall.setStyle n p.1 "")
          ++ S2.filterMap (writeEntry S1 n))
      ↔ ¬ w1.str = w2.str := by
  rw [List.mem_append]
  constructor
  · intro h
    cases h with
    | inl h1 =>
      exfalso
      obtain ⟨p, hpmem, hpe⟩ := List.mem_map.mp h1
      have hp1 : p.1 = key := by
        injection hpe with h1 h2 h3
      have hmem := (List.mem_filter.mp hpmem).2
      rw [hp1, hS2k] at hmem
      cases hmem
    | inr h2 =>
      obtain ⟨p, hpmem, hpe⟩ := List.mem_filterMap.mp h2
      unfold writeEntry at hpe
      cases hS1p : alistLookup S1 p.1 with
      | none =>
        rw [hS1p] at hpe
        have hp1 : p.1 = key := by
          injection Option.some.inj hpe with h1 h2 h3
        rw [hp1, hS1k] at hS1p
        cases hS1p
      | some v =>
        rw [hS1p] at hpe
        by_cases heq : (v.str == p.2.str) = true
        · rw [show (match some v with
              | some v => if v.str == p.2.str then none
                  else some (DomCall.setStyle n p.1 p.2.str)
              | none => some (DomCall.setStyle n p.1 p.2.str))
              = (if (v.str == p.2.str) = true then none
                  else some (DomCall.setStyle n p.1 p.2.str)) from rfl,
            if_pos heq] at hpe
          cases hpe
        · rw [show (match some v with
              | some v => if v.str == p.2.str then none
                  else some (DomCall.setStyle n p.1 p.2.str)
              | none => some (DomCall.setStyle n p.1 p.2.str))
              = (if (v.str == p.2.str) = true then none
                  else some (DomCall.setStyle n p.1 p.2.str)) from rfl,
            if_neg heq] at hpe
          have hinj := Option.some.inj hpe
          have hp1 : p.1 = key := by injection hinj with h1 h2 h3
          have hp2 : p.2.str = w2.str := by injection hinj with h1 h2 h3
          rw [hp1] at hS1p
          rw [hS1k] at hS1p
          have hv : v = w1 := Option.some.inj hS1p.symm
          intro hcon
          apply heq
          rw [hv, hp2, hcon]
          exact beq_self_eq_true w2.str
  · intro hne
    right
    apply List.mem_filterMap.mpr
    refine ⟨(key, w2), alistLookup_some_mem S2 key w2 hS2k, ?_⟩
    unfold writeEntry
    show (match alistLookup S1 (key, w2).1 with
      | some v => if v.str == (key, w2).2.str then none
          else some (DomCall.setStyle n (key, w2).1 (key, w2).2.str)
      | none => some (DomCall.setStyle n (key, w2).1 (key, w2).2.str)) = _
    rw [show alistLookup S1 (key, w2).1 = some w1 from hS1k]
    show (if (w1.str == w2.str) = true then none
        else some (DomCall.setStyle n key w2.str)) = _
    rw [if_neg (fun hc => hne (beq_iff_eq.mp hc))]

/-- C5 (style reconciliation): for all style maps S1 on previous and S2 on
next (duplicate-free keys, as JavaScript objects have), when the pair
reaches the in-place diffing path (equal tags, both Element) and the live
node's style holds exactly S1's effective string map, afterwards the live
node's style map equals exactly S2's effective string map — every key of S1
absent from S2 is cleared, and a key present in both maps is rewritten
(a setStyle call for it appears in the trace) if and only if the string
forms of the two values differ — comparison is by string form, never by
reference. -/
theorem claim5_style_roundtrip
    (tg : String) (k1 k2 : Option Nat)
    (S1 S2 A1 A2 : List (String × SVal)) (E1 E2 : List (String × List Nat))
    (v1 v2 : Option Nat) (dm2 : Option Nat)
    (n : Nat) (dn : DomNode) (d : Dom)
    (hn1 : nodupKeys S1 = true) (hn2 : nodupKeys S2 = true)
    (hd : lookupNode d n = some dn)
    (hstyle : dn.style = stringAList S1)
    (htrace : d.trace = []) :
    (∀ key,
      (lookupNode (updateVNodeDOM
          (VNode.mk tg VNodeType.element k1 S1 A1 E1 [] v1 (some n))
          (VNode.mk tg VNodeType.element k2 S2 A2 E2 [] v2 dm2) d).2 n).map
        (fun m => alistLookup m.style key)
        = some (styleSpec S2 key))
    ∧ (∀ key w1 w2, alistLookup S1 key = some w1 → alistLookup S2 key = some w2 →
        ((DomCall.setStyle n key w2.str
            ∈ (updateVNodeDOM
                (VNode.mk tg VNodeType.element k1 S1 A1 E1 [] v1 (some n))
                (VNode.mk tg VNodeType.element k2 S2 A2 E2 [] v2 dm2) d).2.trace)
          ↔ ¬ w1.str = w2.str)) := by
  have hirr : irreconcilable
      (VNode.mk tg VNodeType.element k1 S1 A1 E1 [] v1 (some n))
      (VNode.mk tg VNodeType.element k2 S2 A2 E2 [] v2 dm2) = false := by
    unfold irreconcilable
    rw [show (VNode.mk tg VNodeType.element k1 S1 A1 E1 [] v1 (some n)).tag
        = tg from rfl,
      show (VNode.mk tg VNodeType.element k2 S2 A2 E2 [] v2 dm2).tag = tg from rfl,
      bne_self_eq_false]
    rfl
  have hSfold : lookupNode
      (styleLoops (VNode.mk tg VNodeType.element k1 S1 A1 E1 [] v1 (some n))
        (VNode.mk tg VNodeType.element k2 S2 A2 E2 [] v2 dm2) d) n
      = some { dn with
          style := (S2.foldl (styleStep2 S1) (S1.foldl (styleStep1 S2) dn.style)) } := by
    have h1 := fold1_bridge S2 n S1 d dn hd
    exact fold2_bridge S1 n S2 _ _ h1
  have hsltrace : (styleLoops (VNode.mk tg VNodeType.element k1 S1 A1 E1 [] v1 (some n))
      (VNode.mk tg VNodeType.element k2 S2 A2 E2 [] v2 dm2) d).trace
      = (S1.filter (fun p => (alistLookup S2 p.1).isNone)).map
          (fun p => DomCall.setStyle n p.1 "")
        ++ S2.filterMap (writeEntry S1 n) := by
    show (S2.foldl (writeStep S1 (some n))
        (S1.foldl (clearStep S2 (some n)) d)).trace = _
    rw [trace_fold2, trace_fold1, htrace, List.nil_append]
  cases v2 with
  | none =>
    have hstep : (updateVNodeDOM
        (VNode.mk tg VNodeType.element k1 S1 A1 E1 [] v1 (some n))
        (VNode.mk tg VNodeType.element k2 S2 A2 E2 [] none dm2) d).2
        = attrLoops (VNode.mk tg VNodeType.element k1 S1 A1 E1 [] v1 (some n))
            (VNode.mk tg VNodeType.element k2 S2 A2 E2 [] none dm2)
            (eventLoops (VNode.mk tg VNodeType.element k1 S1 A1 E1 [] v1 (some n))
              (VNode.mk tg VNodeType.element k2 S2 A2 E2 [] none dm2)
              (styleLoops (VNode.mk tg VNodeType.element k1 S1 A1 E1 [] v1 (some n))
                (VNode.mk tg VNodeType.element k2 S2 A2 E2 [] none dm2) d)) := by
      show (updAux (0 + 1)
        (VNode.mk tg VNodeType.element k1 S1 A1 E1 [] v1 (some n))
        (VNode.mk tg VNodeType.element k2 S2 A2 E2 [] none dm2) d).2 = _
      rw [updAux,
        if_neg (fun hc => absurd hc (by rw [hirr]; exact Bool.false_ne_true))]
      rfl
    constructor
    · intro key
      have hso : styleOf (updateVNodeDOM
          (VNode.mk tg VNodeType.element k1 S1 A1 E1 [] v1 (some n))
          (VNode.mk tg VNodeType.element k2 S2 A2 E2 [] none dm2) d).2 n
          = some (S2.foldl (styleStep2 S1) (S1.foldl (styleStep1 S2) dn.style)) := by
        rw [hstep, styleOf_attrLoops, styleOf_eventLoops]
        unfold styleOf
        rw [hSfold]
        rfl
      cases hL : lookupNode (updateVNodeDOM
          (VNode.mk tg VNodeType.element k1 S1 A1 E1 [] v1 (some n))
          (VNode.mk tg VNodeType.element k2 S2 A2 E2 [] none dm2) d).2 n with
      | none =>
        unfold styleOf at hso
        rw [hL] at hso
        cases hso
      | some nd2 =>
        unfold styleOf at hso
        rw [hL] at hso
        have hnd2 : nd2.style
            = S2.foldl (styleStep2 S1) (S1.foldl (styleStep1 S2) dn.style) :=
          Option.some.inj hso
        show some (alistLookup nd2.style key) = some (styleSpec S2 key)
        rw [hnd2, hstyle, claim5_pure S1 S2 hn1 hn2 key]
    · intro key w1 w2 hS1k hS2k
      have hsc : styleCalls ((updateVNodeDOM
          (VNode.mk tg VNodeType.element k1 S1 A1 E1 [] v1 (some n))
          (VNode.mk tg VNodeType.element k2 S2 A2 E2 [] none dm2) d).2.trace)
          = styleCalls ((styleLoops
              (VNode.mk tg VNodeType.element k1 S1 A1 E1 [] v1 (some n))
              (VNode.mk tg VNodeType.element k2 S2 A2 E2 [] none dm2) d).trace) := by
        rw [hstep, styleCalls_attrLoops, styleCalls_eventLoops]
      have hmem : (DomCall.setStyle n key w2.str
          ∈ (updateVNodeDOM
              (VNode.mk tg VNodeType.element k1 S1 A1 E1 [] v1 (some n))
              (VNode.mk tg VNodeType.element k2 S2 A2 E2 [] none dm2) d).2.trace)
          ↔ (DomCall.setStyle n key w2.str
            ∈ (styleLoops (VNode.mk tg VNodeType.element k1 S1 A1 E1 [] v1 (some n))
                (VNode.mk tg VNodeType.element k2 S2 A2 E2 [] none dm2) d).trace) := by
        constructor
        · intro h
          have h2 := (mem_styleCalls (DomCall.setStyle n key w2.str) _ rfl).mpr h
          rw [hsc] at h2
          exact (mem_styleCalls (DomCall.setStyle n key w2.str) _ rfl).mp h2
        · intro h
          have h2 := (mem_styleCalls (DomCall.setStyle n key w2.str) _ rfl).mpr h
          rw [← hsc] at h2
          exact (mem_styleCalls (DomCall.setStyle n key w2.str) _ rfl).mp h2
      rw [hmem, hsltrace]
      exact claim5_mem S1 S2 n key w1 w2 hS1k hS2k
  | some vv =>
    have hstep : (updateVNodeDOM
        (VNode.mk tg VNodeType.element k1 S1 A1 E1 [] v1 (some n))
        (VNode.mk tg VNodeType.element k2 S2 A2 E2 [] (some vv) dm2) d).2
        = pushTrace
            (attrLoops (VNode.mk tg VNodeType.element k1 S1 A1 E1 [] v1 (some n))
              (VNode.mk tg VNodeType.element k2 S2 A2 E2 [] (some vv) dm2)
              (eventLoops (VNode.mk tg VNodeType.element k1 S1 A1 E1 [] v1 (some n))
                (VNode.mk tg VNodeType.element k2 S2 A2 E2 [] (some vv) dm2)
                (styleLoops (VNode.mk tg VNodeType.element k1 S1 A1 E1 [] v1 (some n))
                  (VNode.mk tg VNodeType.element k2 S2 A2 E2 [] (some vv) dm2) d)))
            (DomCall.handleInvalidation vv) := by
      show (updAux (0 + 1)
        (VNode.mk tg VNodeType.element k1 S1 A1 E1 [] v1 (some n))
        (VNode.mk tg VNodeType.element k2 S2 A2 E2 [] (some vv) dm2) d).2 = _
      rw [updAux,
        if_neg (fun hc => absurd hc (by rw [hirr]; exact Bool.false_ne_true))]
      rfl
    constructor
    · intro key
      have hso : styleOf (updateVNodeDOM
          (VNode.mk tg VNodeType.element k1 S1 A1 E1 [] v1 (some n))
          (VNode.mk tg VNodeType.element k2 S2 A2 E2 [] (some vv) dm2) d).2 n
          = some (S2.foldl (styleStep2 S1) (S1.foldl (styleStep1 S2) dn.style)) := by
        rw [hstep, styleOf_pushTrace, styleOf_attrLoops, styleOf_eventLoops]
        unfold styleOf
        rw [hSfold]
        rfl
      cases hL : lookupNode (updateVNodeDOM
          (VNode.mk tg VNodeType.element k1 S1 A1 E1 [] v1 (some n))
          (VNode.mk tg VNodeType.element k2 S2 A2 E2 [] (some vv) dm2) d).2 n with
      | none =>
        unfold styleOf at hso
        rw [hL] at hso
        cases hso
      | some nd2 =>
        unfold styleOf at hso
        rw [hL] at hso
        have hnd2 : nd2.style
            = S2.foldl (styleStep2 S1) (S1.foldl (styleStep1 S2) dn.style) :=
          Option.some.inj hso
        show some (alistLookup nd2.style key) = some (styleSpec S2 key)
        rw [hnd2, hstyle, claim5_pure S1 S2 hn1 hn2 key]
    · intro key w1 w2 hS1k hS2k
      have htr2 : (updateVNodeDOM
          (VNode.mk tg VNodeType.element k1 S1 A1 E1 [] v1 (some n))
          (VNode.mk tg VNodeType.element k2 S2 A2 E2 [] (some vv) dm2) d).2.trace
          = (attrLoops (VNode.mk tg VNodeType.element k1 S1 A1 E1 [] v1 (some n))
              (VNode.mk tg VNodeType.element k2 S2 A2 E2 [] (some vv) dm2)
              (eventLoops (VNode.mk tg VNodeType.element k1 S1 A1 E1 [] v1 (some n))
                (VNode.mk tg VNodeType.element k2 S2 A2 E2 [] (some vv) dm2)
                (styleLoops (VNode.mk tg VNodeType.element k1 S1 A1 E1 [] v1 (some n))
                  (VNode.mk tg VNodeType.element k2 S2 A2 E2 [] (some vv) dm2) d))).trace
            ++ [DomCall.handleInvalidation vv] := by
        rw [hstep, trace_pushTrace]
      have hmem : (DomCall.setStyle n key w2.str
          ∈ (updateVNodeDOM
              (VNode.mk tg VNodeType.element k1 S1 A1 E1 [] v1 (some n))
              (VNode.mk tg VNodeType.element k2 S2 A2 E2 [] (some vv) dm2) d).2.trace)
          ↔ (DomCall.setStyle n key w2.str
            ∈ (styleLoops (VNode.mk tg VNodeType.element k1 S1 A1 E1 [] v1 (some n))
                (VNode.mk tg VNodeType.element k2 S2 A2 E2 [] (some vv) dm2) d).trace) := by
        rw [htr2]
        constructor
        · intro h
          cases List.mem_append.mp h with
          | inl h1 =>
            have := (mem_styleCalls (DomCall.setStyle n key w2.str) _ rfl).mpr h1
            rw [styleCalls_attrLoops, styleCalls_eventLoops] at this
            exact (mem_styleCalls (DomCall.setStyle n key w2.str) _ rfl).mp this
          | inr h2 =>
            cases List.mem_singleton.mp h2
        · intro h
          apply List.mem_append.mpr
          left
          have := (mem_styleCalls (DomCall.setStyle n key w2.str) _ rfl).mpr h
          rw [← styleCalls_eventLoops
            (VNode.mk tg VNodeType.element k1 S1 A1 E1 [] v1 (some n))
            (VNode.mk tg VNodeType.element k2 S2 A2 E2 [] (some vv) dm2),
            ← styleCalls_attrLoops
            (VNode.mk tg VNodeType.element k1 S1 A1 E1 [] v1 (some n))
            (VNode.mk tg VNodeType.element k2 S2 A2 E2 [] (some vv) dm2)] at this
          exact (mem_styleCalls (DomCall.setStyle n key w2.str) _ rfl).mp this
      rw [hmem, hsltrace]
      exact claim5_mem S1 S2 n key w1 w2 hS1k hS2k

/-- Concrete previous style map for the claim 5 witness: one property. -/
def st5a : List (String × SVal) := [("color", ⟨1, "red"⟩)]

/-- Concrete next style map for the claim 5 witness: the shared property with a
different string form, plus a fresh one. -/
def st5b : List (String × SVal) := [("color", ⟨2, "blue"⟩), ("width", ⟨3, "5px"⟩)]

/-- Live node 0 for the claim 5 witness, carrying the previous styles. -/
def dn5 : DomNode :=
  { style := stringAList st5a, attrs := [], listeners := [], children := [] }

/-- Live document for the claim 5 witness. -/
def d5 : Dom := { nodes := [(0, dn5)], fresh := 1, trace := [] }

/-- Claim 5 witness: on a concrete reconciliation the live style map of node 0
agrees with the next styles pointwise and the changed property is written. -/
theorem claim5_witness :
    nodupKeys st5a = true ∧ nodupKeys st5b = true ∧
    ((lookupNode (updateVNodeDOM
        (VNode.mk "div" VNodeType.element none st5a [] [] [] none (some 0))
        (VNode.mk "div" VNodeType.element none st5b [] [] [] none none) d5).2 0).map
      (fun m => alistLookup m.style "color") = some (styleSpec st5b "color")
    ∧ ((DomCall.setStyle 0 "color" "blue"
          ∈ (updateVNodeDOM
              (VNode.mk "div" VNodeType.element none st5a [] [] [] none (some 0))
              (VNode.mk "div" VNodeType.element none st5b [] [] [] none none)
              d5).2.trace)
        ↔ ¬ "red" = "blue")) :=
  have h := claim5_style_roundtrip "div" none none st5a st5b [] [] [] []
    none none none 0 dn5 d5 (by decide) (by decide) rfl rfl rfl
  ⟨by decide, by decide,
    ⟨h.1 "color", h.2 "color" ⟨1, "red"⟩ ⟨2, "blue"⟩ rfl rfl⟩⟩
